import Mathlib

/-!
Verification of the iptv-sub channel pipeline (parser, aggregator, stream
tester) against its natural-language specification.

Shallow embedding conventions:
* Python strings are modelled as `List Char` (`PyStr`); string literals are
  injected with `String.data`.
* Python dict-shaped channel records become structures whose optional keys
  are `Option` fields.
* Machine floats (similarity ratios, response times) are modelled as `ℚ`.
* Network I/O is modelled by an oracle (`Net`) mapping each request to its
  outcome; exceptions raised by the runtime are outcome constructors.
-/

set_option maxRecDepth 20000

abbrev PyStr := List Char

def str (s : String) : PyStr := s.data

/-- Python's whitespace set, as used by `str.strip` and `str.split`
(Unicode White_Space property). -/
def pyIsSpace (c : Char) : Bool :=
  c = ' ' ∨ c = '\t' ∨ c = '\n' ∨ c = '\r' ∨ c.val = 0x0b ∨ c.val = 0x0c ∨
  (0x1c ≤ c.val ∧ c.val ≤ 0x1f) ∨ c.val = 0x85 ∨ c.val = 0xa0 ∨
  c.val = 0x1680 ∨ (0x2000 ≤ c.val ∧ c.val ≤ 0x200a) ∨
  c.val = 0x2028 ∨ c.val = 0x2029 ∨ c.val = 0x202f ∨ c.val = 0x205f ∨
  c.val = 0x3000

/-- `s.strip()`: drop leading and trailing whitespace. -/
def pyStrip (s : PyStr) : PyStr :=
  ((s.dropWhile pyIsSpace).reverse.dropWhile pyIsSpace).reverse

/-- Drop a single leading U+FEFF byte-order mark (the spec's "BOM stripping";
`str.strip` does not remove it since U+FEFF is not whitespace). -/
def stripBom (s : PyStr) : PyStr :=
  match s with
  | c :: rest => if c = '﻿' then rest else c :: rest
  | [] => []

/-- `s.lower()`, restricted to the ASCII fragment of Python's Unicode
lowercasing (channel names and URLs examined by the claims are ASCII-cased;
non-ASCII letters are fixed points here). -/
def lowerStr (s : PyStr) : PyStr := s.map Char.toLower

/-- The ASCII fragment of Python's Unicode `str.isalnum` (used by
`_normalize_name` to drop punctuation). -/
def pyIsAlnum (c : Char) : Bool := c.isAlphanum

/-- Split on runs of characters satisfying `p`, dropping empty pieces
(the behaviour of `str.split()` / `re.split` followed by the source's
truthiness filter). -/
def splitClassAux (p : Char → Bool) : PyStr → PyStr → List PyStr
  | [], [] => []
  | [], acc => [acc.reverse]
  | c :: rest, acc =>
    if p c then
      (if acc = [] then splitClassAux p rest []
       else acc.reverse :: splitClassAux p rest [])
    else splitClassAux p rest (c :: acc)

/-- `s.split()` (split on whitespace runs, no empty pieces). -/
def pySplit (s : PyStr) : List PyStr := splitClassAux pyIsSpace s []

/-- `' '.join(ws)`. -/
def joinSpace (ws : List PyStr) : PyStr := List.intercalate [' '] ws

def splitlinesAux : PyStr → PyStr → List PyStr
  | [], [] => []
  | [], acc => [acc.reverse]
  | '\r' :: '\n' :: rest, acc => acc.reverse :: splitlinesAux rest []
  | '\r' :: rest, acc => acc.reverse :: splitlinesAux rest []
  | '\n' :: rest, acc => acc.reverse :: splitlinesAux rest []
  | c :: rest, acc => splitlinesAux rest (c :: acc)

/-- `str.splitlines` restricted to the line breaks occurring in M3U text
(`\r\n`, `\r`, `\n`). -/
def pySplitlines (s : PyStr) : List PyStr := splitlinesAux s []

/-!
## difflib.SequenceMatcher

`ChannelAggregator._name_similarity` calls
`SequenceMatcher(None, name1, name2).ratio()`. The algorithm below is the
CPython implementation specialised to `isjunk=None` on inputs below the
autojunk threshold (`len(b) < 200`; channel names are far shorter), for
which the junk sets are empty.
-/

structure FlmSt where
  besti : Nat
  bestj : Nat
  bestsize : Nat
deriving DecidableEq

/-- `b2j[c]`: the (increasing) positions of `c` in `b`. -/
def posOf (b : PyStr) (c : Char) : List Nat :=
  (List.range b.length).filter (fun j => b.getD j ' ' = c)

/-- `j2len.get(j-1, 0) + 1` with Python's `-1` lookup missing the dict. -/
def chainLen (j2len : Nat → Nat) (j : Nat) : Nat :=
  if j = 0 then 1 else j2len (j - 1) + 1

/-- One row of `find_longest_match`'s chain-building loop: iterate the
positions of `a[i]` in `b`, skipping `j < blo` (`continue`) and stopping at
`j ≥ bhi` (`break`). -/
def rowLoop (j2len : Nat → Nat) (i blo bhi : Nat) :
    List Nat → (Nat → Nat) → FlmSt → ((Nat → Nat) × FlmSt)
  | [], acc, st => (acc, st)
  | j :: js, acc, st =>
    if j < blo then rowLoop j2len i blo bhi js acc st
    else if bhi ≤ j then (acc, st)
    else
      let k := chainLen j2len j
      let acc2 := fun j2 => if j2 = j then k else acc j2
      let st2 := if st.bestsize < k then ⟨i + 1 - k, j + 1 - k, k⟩ else st
      rowLoop j2len i blo bhi js acc2 st2

/-- The outer loop of `find_longest_match` over rows `i ∈ [alo, ahi)`. -/
def flmRows (a b : PyStr) (blo bhi : Nat) :
    List Nat → (Nat → Nat) → FlmSt → FlmSt
  | [], _, st => st
  | i :: is2, j2len, st =>
    let r := rowLoop j2len i blo bhi (posOf b (a.getD i ' ')) (fun _ => 0) st
    flmRows a b blo bhi is2 r.1 r.2

/-- Leftward extension of the best block over equal (non-junk) characters.
Each iteration lowers `besti` by one and needs `alo < besti`, so a fuel of
`st.besti` can never cut the loop short. -/
def extLeftAux (a b : PyStr) (alo blo : Nat) : Nat → FlmSt → FlmSt
  | 0, st => st
  | fuel + 1, st =>
    if alo < st.besti ∧ blo < st.bestj ∧
        a.getD (st.besti - 1) ' ' = b.getD (st.bestj - 1) ' ' then
      extLeftAux a b alo blo fuel ⟨st.besti - 1, st.bestj - 1, st.bestsize + 1⟩
    else st

def extLeft (a b : PyStr) (alo blo : Nat) (st : FlmSt) : FlmSt :=
  extLeftAux a b alo blo st.besti st

/-- Rightward extension of the best block over equal (non-junk) characters.
Each iteration raises `bestsize` and needs `besti + bestsize < ahi`, so a
fuel of `ahi` can never cut the loop short. -/
def extRightAux (a b : PyStr) (ahi bhi : Nat) : Nat → FlmSt → FlmSt
  | 0, st => st
  | fuel + 1, st =>
    if st.besti + st.bestsize < ahi ∧ st.bestj + st.bestsize < bhi ∧
        a.getD (st.besti + st.bestsize) ' ' = b.getD (st.bestj + st.bestsize) ' ' then
      extRightAux a b ahi bhi fuel ⟨st.besti, st.bestj, st.bestsize + 1⟩
    else st

def extRight (a b : PyStr) (ahi bhi : Nat) (st : FlmSt) : FlmSt :=
  extRightAux a b ahi bhi ahi st

/-- `find_longest_match(alo, ahi, blo, bhi)` (empty junk sets, so the two
junk-extension loops of the CPython source never fire and are omitted). -/
def flm (a b : PyStr) (alo ahi blo bhi : Nat) : FlmSt :=
  let st := flmRows a b blo bhi (List.range' alo (ahi - alo)) (fun _ => 0)
    ⟨alo, blo, 0⟩
  extRight a b ahi bhi (extLeft a b alo blo st)

/-- Total size of all matching blocks (the recursion of
`get_matching_blocks`; the queue order and the adjacent-block merge do not
change the sum). `fuel` bounds the recursion depth and
`(ahi - alo) + (bhi - blo) + 1` always suffices. -/
def matchedTotal (a b : PyStr) : Nat → Nat → Nat → Nat → Nat → Nat
  | 0, _, _, _, _ => 0
  | fuel + 1, alo, ahi, blo, bhi =>
    let m := flm a b alo ahi blo bhi
    if m.bestsize = 0 then 0
    else
      matchedTotal a b fuel alo m.besti blo m.bestj + m.bestsize +
        matchedTotal a b fuel (m.besti + m.bestsize) ahi
          (m.bestj + m.bestsize) bhi

/-- `M`: the total number of matched characters. -/
def pyMatches (a b : PyStr) : Nat :=
  matchedTotal a b (a.length + b.length + 1) 0 a.length 0 b.length

/-- `SequenceMatcher.ratio() = 2.0 * M / T` (`1.0` when both inputs are
empty), modelled exactly as the rational `2 * M / T`. -/
def pyRatio (a b : PyStr) : ℚ :=
  if a.length + b.length = 0 then 1
  else mkRat (2 * pyMatches a b) (a.length + b.length)

/-!
## ChannelAggregator (src/modules/aggregator.py)
-/

/-- The quality-suffix table of `_normalize_name`, tried in source order. -/
def qualitySuffixes : List PyStr :=
  [str "hd", str "sd", str "fhd", str "4k", str "uhd",
   str "h264", str "h265", str "hevc"]

/-- The suffix loop of `_normalize_name`: each suffix is conditionally
stripped (`name[:-len(suffix)-1]`) when the current name ends in
`" " + suffix`. -/
def stripQualitySuffixes (s : PyStr) : PyStr :=
  qualitySuffixes.foldl
    (fun nm suf =>
      if (' ' :: suf).isSuffixOf nm then nm.take (nm.length - (suf.length + 1))
      else nm) s

/-- `_normalize_name` after its initial `name.lower()`: strip quality
suffixes, keep alphanumeric/whitespace characters, collapse whitespace. -/
def normAfterLower (s : PyStr) : PyStr :=
  joinSpace (pySplit ((stripQualitySuffixes s).filter
    (fun c => pyIsAlnum c || pyIsSpace c)))

/-- `_normalize_name`. -/
def normName (s : PyStr) : PyStr := normAfterLower (lowerStr s)

/-- `_name_similarity`: SequenceMatcher ratio over normalized names. -/
def nameSimilarity (name1 name2 : PyStr) : ℚ :=
  pyRatio (normName name1) (normName name2)

/-- An entry of a channel's `sources` list. The parser writes `{'url': u}`
(no `source` key, modelled as `none`); `_update_channel` writes
`{'url': ..., 'source': ...}`. -/
structure SrcRec where
  url : PyStr
  source : Option (Option PyStr) := none
deriving DecidableEq

/-- A channel dict as produced by `parse_m3u` and stored by the
aggregator. `tvg_id`/`tvg_name`/`tvg_logo` default to the empty string
(Python falsy), `source` is the subscription URL (possibly `None`), and
`sources` is `none` when the dict has no `'sources'` key. -/
structure AChan where
  name : PyStr
  url : PyStr
  tvg_id : PyStr
  tvg_name : PyStr
  tvg_logo : PyStr
  group_title : PyStr
  source : Option PyStr
  sources : Option (List SrcRec)
deriving DecidableEq

instance : Inhabited AChan := ⟨⟨[], [], [], [], [], [], none, none⟩⟩

/-- The `match_by` argument of `aggregate_channels`. -/
inductive MatchBy
  | name
  | tvg_id
  | both
deriving DecidableEq

/-- The per-channel test of `_find_matching_channel`'s loop body: the
tvg_id clause, then exact lowercase name equality, then fuzzy similarity
at or above the threshold (per channel the three tests form one
disjunction, so first-match semantics are unchanged). -/
def chanMatches (ch c : AChan) (mb : MatchBy) (θ : ℚ) : Bool :=
  if (mb = MatchBy.tvg_id ∨ mb = MatchBy.both) ∧ c.tvg_id ≠ [] ∧
      ch.tvg_id = c.tvg_id then true
  else if (mb = MatchBy.name ∨ mb = MatchBy.both) ∧
      (lowerStr ch.name = lowerStr c.name ∨
        θ ≤ nameSimilarity ch.name c.name) then true
  else false

def findMatchIdxAux (c : AChan) (mb : MatchBy) (θ : ℚ) :
    List AChan → Nat → Option Nat
  | [], _ => none
  | ch :: rest, k =>
    if chanMatches ch c mb θ then some k
    else findMatchIdxAux c mb θ rest (k + 1)

/-- `_find_matching_channel`, returning the index of the first stored
channel the loop would return (mutation happens in place, so the index
identifies the dict). -/
def findMatchIdx (chans : List AChan) (c : AChan) (mb : MatchBy) (θ : ℚ) :
    Option Nat :=
  findMatchIdxAux c mb θ chans 0

/-- The `sources`-backfill step at the top of `_update_channel` (the
`'url' in ...`/`'source' in ...` key tests always hold for parser-shaped
dicts, whose keys are always present). -/
def ensureSources (ex : AChan) : AChan :=
  match ex.sources with
  | none => { ex with sources := some [{ url := ex.url, source := some ex.source }] }
  | some _ => ex

/-- `_update_channel`: add the candidate's URL to `sources` unless already
present, fill falsy `tvg_id`/`tvg_logo`, leave `url` untouched. -/
def updateChannel (ex0 c : AChan) : AChan :=
  let ex := ensureSources ex0
  let srcs := ex.sources.getD []
  let srcs2 :=
    if srcs.any (fun s => decide (s.url = c.url)) then srcs
    else srcs ++ [{ url := c.url, source := some c.source }]
  let ex2 := { ex with sources := some srcs2 }
  let ex3 :=
    if ex2.tvg_id = [] ∧ c.tvg_id ≠ [] then { ex2 with tvg_id := c.tvg_id }
    else ex2
  if ex3.tvg_logo = [] ∧ c.tvg_logo ≠ [] then { ex3 with tvg_logo := c.tvg_logo }
  else ex3

/-- One iteration of the `aggregate_channels` loop: update the first
matching stored channel in place, or append the candidate. -/
def mergeOne (mb : MatchBy) (θ : ℚ) (store : List AChan) (c : AChan) :
    List AChan :=
  match findMatchIdx store c mb θ with
  | some i => store.set i (updateChannel (store.getD i default) c)
  | none => store ++ [c]

/-- `aggregate_channels` (the resulting `self.channels`; the returned
counters are not modelled). An empty store adopts `new_channels` verbatim. -/
def aggregateChannels (channels newChannels : List AChan) (mb : MatchBy)
    (θ : ℚ) : List AChan :=
  if channels = [] then newChannels
  else newChannels.foldl (mergeOne mb θ) channels

/-- The URLs of a channel's `sources` list (empty when the key is absent). -/
def srcUrls (ch : AChan) : List PyStr := (ch.sources.getD []).map SrcRec.url

/-- A channel "holds" a URL when it is its primary `url` or appears in its
`sources`. -/
def holdsUrl (ch : AChan) (u : PyStr) : Prop := ch.url = u ∨ u ∈ srcUrls ch

/-- Modelled from the spec: group-title folding (§4.2) reduced to its
pass-through-trimmed case; the configurable keyword table is not in the
source and does not affect the inputs considered here. -/
def specNormGroup (g : PyStr) : PyStr := pyStrip g

/-- Modelled from the spec (§4.3, byName): exact equality of normalized
names within the same normalized group takes precedence; otherwise the
channel with the highest similarity score `≥ θ` wins, ties broken by
lowest existing id (stored channels are identified by index, in creation
order). -/
def findMatchSpecByName (chans : List AChan) (c : AChan) (θ : ℚ) :
    Option Nat :=
  let exact := (List.range chans.length).filter (fun i =>
    decide (normName (chans.getD i default).name = normName c.name) &&
    decide (specNormGroup (chans.getD i default).group_title =
      specNormGroup c.group_title))
  match exact with
  | i :: _ => some i
  | [] =>
    let scored := (List.range chans.length).filter (fun i =>
      decide (θ ≤ nameSimilarity (chans.getD i default).name c.name))
    scored.foldl
      (fun best i =>
        match best with
        | none => some i
        | some b =>
          if nameSimilarity (chans.getD b default).name c.name <
              nameSimilarity (chans.getD i default).name c.name then some i
          else some b) none

/-!
## M3UParser (src/modules/parser.py)
-/

/-- `re.search(r',(.*?)$', line)`: the text after the first comma. -/
def afterComma : PyStr → Option PyStr
  | [] => none
  | ',' :: rest => some rest
  | _ :: rest => afterComma rest

def extractAttrAux (pat : PyStr) : PyStr → Option PyStr
  | [] => none
  | c :: rest =>
    if pat.isPrefixOf (c :: rest) then
      let v := (c :: rest).drop pat.length
      if v.any (fun ch => decide (ch = '"')) then
        some (v.takeWhile (fun ch => decide (ch ≠ '"')))
      else none
    else extractAttrAux pat rest

/-- `re.search(key + '="([^"]*?)"', line)`: the quoted value at the first
occurrence of `key="` that has a closing quote (if the first occurrence
has no closing quote, no later one can). -/
def extractAttr (line key : PyStr) : Option PyStr :=
  extractAttrAux (key ++ str "=\x22") line

structure ExtInfo where
  name : Option PyStr
  tvg_id : Option PyStr
  tvg_name : Option PyStr
  tvg_logo : Option PyStr
  group_title : Option PyStr

/-- `_parse_extinf`. -/
def parseExtinf (line : PyStr) : ExtInfo :=
  ⟨(afterComma line).map pyStrip,
   extractAttr line (str "tvg-id"),
   extractAttr line (str "tvg-name"),
   extractAttr line (str "tvg-logo"),
   extractAttr line (str "group-title")⟩

/-- `re.split(r'[;#\s]+', url_line)` followed by the source's truthiness
filter (tokens contain no delimiter characters, so `p.strip() == p`). -/
def urlLineTokens (line : PyStr) : List PyStr :=
  splitClassAux (fun c => c = ';' || c = '#' || pyIsSpace c) line []

/-- `p.strip().lower().startswith(('http://', 'https://', 'rtmp://'))`. -/
def schemeTokenOk (p : PyStr) : Bool :=
  (str "http://").isPrefixOf (lowerStr p) ||
  (str "https://").isPrefixOf (lowerStr p) ||
  (str "rtmp://").isPrefixOf (lowerStr p)

/-- The case-sensitive scheme test on line 95 of parser.py
(`valid_urls[0].startswith('http://') or ...`). -/
def exactSchemeOk (p : PyStr) : Bool :=
  (str "http://").isPrefixOf p ||
  (str "https://").isPrefixOf p ||
  (str "rtmp://").isPrefixOf p

/-- The retained URL tokens of a URL line. -/
def validUrls (line : PyStr) : List PyStr :=
  (urlLineTokens line).filter schemeTokenOk

/-- Split a string at the first occurrence of `pat`, returning the parts
before and after it. -/
def splitAtSub (pat : PyStr) : PyStr → Option (PyStr × PyStr)
  | [] => none
  | c :: rest =>
    if pat.isPrefixOf (c :: rest) then some ([], (c :: rest).drop pat.length)
    else
      match splitAtSub pat rest with
      | some (pre, post) => some (c :: pre, post)
      | none => none

structure UrlParts where
  scheme : PyStr
  netloc : PyStr
  path : PyStr

/-- Simplified `urllib.parse.urlparse` for absolute URLs of the shape
`scheme://netloc/path` (query/fragment splitting is not exercised by the
inputs considered here). -/
def pyUrlparse (u : PyStr) : UrlParts :=
  match splitAtSub (str "://") u with
  | some (sch, rest) =>
    ⟨lowerStr sch, rest.takeWhile (fun c => decide (c ≠ '/')),
      rest.dropWhile (fun c => decide (c ≠ '/'))⟩
  | none => ⟨[], [], u⟩

/-- `_resolve_relative_url`: `'/'.join(path.split('/')[:-1]) + '/'` as the
base directory, then scheme/netloc concatenation. -/
def resolveRelativeUrl (baseUrl relUrl : PyStr) : PyStr :=
  let p := pyUrlparse baseUrl
  let basePath :=
    List.intercalate [ '/' ] ((p.path.splitOn '/').dropLast) ++ [ '/' ]
  if relUrl.headD ' ' = '/' then p.scheme ++ str "://" ++ p.netloc ++ relUrl
  else p.scheme ++ str "://" ++ p.netloc ++ basePath ++ relUrl

/-- The `while i < len(lines)` loop of `parse_m3u`. An `#EXTINF:` line whose
successor exists and is not a comment consumes two lines (`i += 2`);
every other case (including a final `#EXTINF:` line with no successor)
advances one line and emits nothing. -/
def parseM3uLines (srcUrl : Option PyStr) : List PyStr → List AChan
  | [] => []
  | [_] => []
  | line0 :: next :: rest2 =>
    let line := pyStrip line0
    if line = [] ∨ ((str "#").isPrefixOf line ∧
        ¬ (str "#EXTINF:").isPrefixOf line) then
      parseM3uLines srcUrl (next :: rest2)
    else if (str "#EXTINF:").isPrefixOf line then
      if ¬ (str "#").isPrefixOf (pyStrip next) then
        let info := parseExtinf line
        let valids0 := validUrls (pyStrip next)
        let valids :=
          match valids0, srcUrl with
          | v0 :: vrest, some src =>
            if ¬ exactSchemeOk v0 then resolveRelativeUrl src v0 :: vrest
            else v0 :: vrest
          | _, _ => valids0
        match valids with
        | [] => parseM3uLines srcUrl rest2
        | v0 :: vrest =>
          { name := info.name.getD (str "未命名频道")
            url := v0
            tvg_id := info.tvg_id.getD []
            tvg_name := info.tvg_name.getD []
            tvg_logo := info.tvg_logo.getD []
            group_title := info.group_title.getD (str "未分类")
            source := srcUrl
            sources :=
              if vrest = [] then none
              else some (vrest.map (fun u => { url := u, source := none })) }
            :: parseM3uLines srcUrl rest2
      else parseM3uLines srcUrl (next :: rest2)
    else parseM3uLines srcUrl (next :: rest2)

/-- `parse_m3u`. -/
def parseM3u (content : PyStr) (srcUrl : Option PyStr) : List AChan :=
  parseM3uLines srcUrl (pySplitlines content)

def formatErrorMsg : PyStr := str "无效的M3U文件格式"

/-- The `#EXTM3U` validation inside `fetch_m3u` (parser.py lines 55–58). -/
def validM3uContent (content : PyStr) : Bool :=
  (str "#EXTM3U").isPrefixOf (pyStrip content)

/-- The decode pipeline as the refresh flow runs it (app.py lines 62–72):
fetched text is validated by `fetch_m3u`; only on success is `parse_m3u`
invoked, otherwise the subscription contributes zero channels. -/
def decodeM3u (content : PyStr) (srcUrl : Option PyStr) :
    Except PyStr (List AChan) :=
  if validM3uContent content then Except.ok (parseM3u content srcUrl)
  else Except.error formatErrorMsg

/-!
## StreamTester (src/modules/stream_tester.py)

Network I/O is modelled by an oracle `Net` mapping each request the probe
can issue to its outcome; runtime exceptions are outcome constructors.
`elapsed` stands for the measured wall-clock delta.
-/

/-- Outcome of a `requests.get`/`requests.head` call: a completed response
(status and body), or one of the exceptions the source handles. -/
inductive ReqOutcome
  | ok (status : Nat) (body : PyStr)
  | timeout
  | connError
  | exc (msg : PyStr)
deriving DecidableEq

/-- Outcome of the live-platform branch's streaming GET together with its
first-chunk iteration (either of which may raise). -/
inductive StreamOutcome
  | done (status : Nat)
  | timeout
  | connError
  | exc (msg : PyStr)
deriving DecidableEq

/-- Outcome of `socket.create_connection`; every failure (including
`socket.timeout`, whose text is "timed out") is caught by the branch's
blanket `except Exception` and rendered into the message. -/
inductive TcpOutcome
  | ok
  | exc (msg : PyStr)
deriving DecidableEq

structure Net where
  head : PyStr → ReqOutcome
  get : PyStr → ReqOutcome
  getStream : PyStr → StreamOutcome
  tcp : PyStr → Nat → TcpOutcome
  elapsed : ℚ

/-- Python's `sub in s` substring test. -/
def containsSub (needle : PyStr) : PyStr → Bool
  | [] => decide (needle = [])
  | c :: rest => needle.isPrefixOf (c :: rest) || containsSub needle rest

/-- Render a status code as in the f-strings of the source. -/
def natStr (n : Nat) : PyStr := (toString n).data

/-- `urlparse(url).hostname` (lowercased) and `.port or 1935` for the rtmp
branch, simplified to `host[:port]` netlocs (no userinfo; a non-numeric
port falls back to the default as `or 1935` does for falsy values). -/
def rtmpHostPort (url : PyStr) : PyStr × Nat :=
  let p := pyUrlparse url
  let host := lowerStr (p.netloc.takeWhile (fun c => decide (c ≠ ':')))
  let portDigits := (p.netloc.dropWhile (fun c => decide (c ≠ ':'))).drop 1
  let port :=
    if portDigits ≠ [] ∧ portDigits.all Char.isDigit then
      (String.mk portDigits).toNat!
    else 1935
  (host, if port = 0 then 1935 else port)

/-- `re.match(r"^[^#?]+\.ts([?#].*)?$", line)`: some split of the line into
a nonempty `#`/`?`-free head, a literal `.ts`, and an empty or `?`/`#`-led
tail (backtracking makes the match equivalent to such a split existing). -/
def tsRegexMatch (line : PyStr) : Bool :=
  (List.range (line.length + 1)).any (fun k =>
    let p := line.take k
    let rest := line.drop k
    decide (p ≠ []) &&
    p.all (fun c => decide (c ≠ '#') && decide (c ≠ '?')) &&
    (str ".ts").isPrefixOf rest &&
    (let q := rest.drop 3
     decide (q = []) || decide (q.headD ' ' = '?') || decide (q.headD ' ' = '#')))

/-- Simplified `urllib.parse.urljoin` covering the shapes the segment loop
produces: an absolute URL is kept, a root-relative path replaces the base
path, anything else is resolved against the base directory. -/
def pyUrljoin (base rel : PyStr) : PyStr :=
  if (splitAtSub (str "://") rel).isSome then rel
  else resolveRelativeUrl base rel

/-- The segment-collection loop of the `.m3u8` branch: strip each playlist
line, skip empty/comment lines, collect candidate segment URLs (first
conditional: `.ts` suffix, the `.ts` regex, or a `.ts` substring; second:
no `#` anywhere and not `http`-led), stopping once three are collected. -/
def tsUrlsAux (url : PyStr) : List PyStr → List PyStr → List PyStr
  | [], acc => acc.reverse
  | l0 :: rest, acc =>
    if acc.length ≥ 3 then acc.reverse
    else
      let line := pyStrip l0
      if line = [] ∨ (str "#").isPrefixOf line then tsUrlsAux url rest acc
      else if (str ".ts").isSuffixOf line || tsRegexMatch line ||
          containsSub (str ".ts") line then
        tsUrlsAux url rest (pyUrljoin url line :: acc)
      else if line.all (fun c => decide (c ≠ '#')) ∧
          ¬ (str "http").isPrefixOf line then
        tsUrlsAux url rest (pyUrljoin url line :: acc)
      else tsUrlsAux url rest acc

def tsUrls (url body : PyStr) : List PyStr :=
  tsUrlsAux url (pySplitlines body) []

/-- `test_stream`: returns `(available, elapsed-or-error-message)`; the
error message is a `PyStr`, a success carries the elapsed time. -/
def testStream (url : PyStr) (net : Net) : Bool × (ℚ ⊕ PyStr) :=
  if (str "rtmp").isPrefixOf (lowerStr url) then
    let hp := rtmpHostPort url
    match net.tcp hp.1 hp.2 with
    | TcpOutcome.ok => (true, Sum.inl net.elapsed)
    | TcpOutcome.exc m => (false, Sum.inr (str "RTMP端口不可达: " ++ m))
  else if containsSub (str "douyu") url || containsSub (str "huya") url ||
      containsSub (str "bilibili") url then
    match net.getStream url with
    | StreamOutcome.done status =>
      if status = 200 then (true, Sum.inl net.elapsed)
      else (false, Sum.inr (str "HTTP错误: " ++ natStr status))
    | StreamOutcome.timeout => (false, Sum.inr (str "请求超时"))
    | StreamOutcome.connError => (false, Sum.inr (str "连接错误"))
    | StreamOutcome.exc m => (false, Sum.inr m)
  else if (str ".m3u8").isSuffixOf url then
    match net.get url with
    | ReqOutcome.ok status body =>
      if status ≠ 200 then
        (false, Sum.inr (str "M3U8下载失败: " ++ natStr status))
      else
        let segs := tsUrls url body
        if segs = [] then (false, Sum.inr (str "未找到TS分片"))
        else if segs.any (fun t =>
            match net.head t with
            | ReqOutcome.ok s _ => decide (s = 200)
            | _ => false) then
          (true, Sum.inl net.elapsed)
        else (false, Sum.inr (str "TS分片不可访问"))
    | ReqOutcome.timeout => (false, Sum.inr (str "请求超时"))
    | ReqOutcome.connError => (false, Sum.inr (str "连接错误"))
    | ReqOutcome.exc m => (false, Sum.inr m)
  else
    match net.head url with
    | ReqOutcome.ok status _ =>
      if status = 200 then (true, Sum.inl net.elapsed)
      else (false, Sum.inr (str "HTTP错误: " ++ natStr status))
    | ReqOutcome.timeout => (false, Sum.inr (str "请求超时"))
    | ReqOutcome.connError => (false, Sum.inr (str "连接错误"))
    | ReqOutcome.exc m => (false, Sum.inr m)

/-- `round(x, 3)` for the response time, as half-up rounding over ℚ
(elapsed times are nonnegative; Python's float representation and its
round-half-to-even differ only at exact representation ties, which the
claims never exercise). -/
def pyRound3 (q : ℚ) : ℚ :=
  mkRat ((2000 * q.num + q.den) / (2 * (q.den : Int))) 1000

/-- The `test_results` sub-dict. `error` is `none` until a result writes
the key; a success writes Python `None` (also modelled `none`), a failure
stores the probe's message/value. -/
structure TestResults where
  status : PyStr
  last_tested : Option PyStr
  working_url : Option PyStr
  response_time : Option ℚ
  error : Option (ℚ ⊕ PyStr) := none
deriving DecidableEq

/-- The fresh `test_results` dict written by `batch_test`. -/
def defaultTR : TestResults :=
  ⟨str "untested", none, none, none, none⟩

/-- The slice of a channel dict that `batch_test`/`_update_test_result`
read and write (`url`, `sources`, `test_results`); all other keys are
untouched by the tester. `test_results = none` models a missing or
non-dict value. -/
structure TChan where
  url : PyStr
  sources : Option (List SrcRec)
  test_results : Option TestResults
deriving DecidableEq

instance : Inhabited TChan := ⟨⟨[], none, none⟩⟩

/-- `_update_test_result` (the channel's `test_results` dict is guaranteed
by `batch_test`'s initialisation pass; `getD` supplies the same default). -/
def updateTestResult (ch : TChan) (url urlType : PyStr) (isWorking : Bool)
    (result : ℚ ⊕ PyStr) (ts : PyStr) : TChan :=
  let tr1 := { ch.test_results.getD defaultTR with last_tested := some ts }
  if isWorking then
    let tr2 := { tr1 with
      status := str "online"
      error := none
      working_url := some url
      response_time :=
        match result with
        | Sum.inl q => some (pyRound3 q)
        | Sum.inr _ => none }
    let ch2 := { ch with test_results := some tr2 }
    if (str "source_").isPrefixOf urlType ∧ ch2.url ≠ url then
      { ch2 with url := url }
    else ch2
  else if urlType = str "main" then
    { ch with test_results := some { tr1 with
        status := str "offline", error := some result,
        working_url := none, response_time := none } }
  else if (str "source_").isPrefixOf urlType then
    if tr1.status ≠ str "online" then
      { ch with test_results := some { tr1 with
          status := str "offline", error := some result,
          working_url := none, response_time := none } }
    else { ch with test_results := some tr1 }
  else { ch with test_results := some tr1 }

/-- The initialisation step of `batch_test`'s first loop: give every
channel a `test_results` dict when it has none (or a non-dict one). -/
def ensureTR (ch : TChan) : TChan :=
  match ch.test_results with
  | none => { ch with test_results := some defaultTR }
  | some _ => ch

/-- The probe tasks built for one channel: the main URL when truthy, then
(`test_all_sources`) one task per truthy source URL. -/
def channelTasks (testAll : Bool) (i : Nat) (ch : TChan) :
    List (Nat × PyStr × PyStr) :=
  (if ch.url ≠ [] then [(i, ch.url, str "main")] else []) ++
  (if testAll then
    match ch.sources with
    | some srcs =>
      srcs.enum.filterMap (fun p =>
        if p.2.url ≠ [] then some (i, p.2.url, str "source_" ++ natStr p.1)
        else none)
    | none => []
  else [])

def buildTasks (testAll : Bool) (chans : List TChan) :
    List (Nat × PyStr × PyStr) :=
  (chans.enum.map (fun p => channelTasks testAll p.1 p.2)).flatten

/-- Application of one completed future: look up its task, run the probe
(`none` models the worker having raised — `future.result()` re-raises and
the update is skipped), and fold the result into the channel list. -/
def applyResult (probe : PyStr → Option (Bool × (ℚ ⊕ PyStr))) (ts : PyStr)
    (tasks : List (Nat × PyStr × PyStr)) (chans : List TChan) (oi : Nat) :
    List TChan :=
  match tasks.get? oi with
  | none => chans
  | some (i, url, role) =>
    match probe url with
    | none => chans
    | some r =>
      chans.set i (updateTestResult (chans.getD i default) url role r.1 r.2 ts)

/-- `batch_test`: initialisation pass, task construction, application of
completed results in an arbitrary completion order (`order` lists task
indices as `as_completed` yields them), and the final pass re-ensuring
`test_results`. The per-URL probe outcome is fixed for the whole batch
(one result per URL). -/
def runBatch (chans : List TChan) (testAll : Bool)
    (probe : PyStr → Option (Bool × (ℚ ⊕ PyStr))) (order : List Nat)
    (ts : PyStr) : List TChan :=
  let init := chans.map ensureTR
  let tasks := buildTasks testAll init
  (order.foldl (applyResult probe ts tasks) init).map ensureTR

/-!
## Derived predicates and concrete inputs used by the claims
-/

/-- The branch-wise success condition of `test_stream`: the probe reports
`available = true` only when the decisive request genuinely succeeded. -/
def probeSuccess (url : PyStr) (net : Net) : Prop :=
  if (str "rtmp").isPrefixOf (lowerStr url) then
    net.tcp (rtmpHostPort url).1 (rtmpHostPort url).2 = TcpOutcome.ok
  else if containsSub (str "douyu") url || containsSub (str "huya") url ||
      containsSub (str "bilibili") url then
    net.getStream url = StreamOutcome.done 200
  else if (str ".m3u8").isSuffixOf url then
    ∃ body, net.get url = ReqOutcome.ok 200 body ∧ tsUrls url body ≠ [] ∧
      ∃ t ∈ tsUrls url body, ∃ b2, net.head t = ReqOutcome.ok 200 b2
  else ∃ b2, net.head url = ReqOutcome.ok 200 b2

/-- The decisive request of the branch handling `url` timed out (for the
rtmp branch, `socket.timeout` renders as "timed out"). -/
def decisiveTimeout (url : PyStr) (net : Net) : Prop :=
  if (str "rtmp").isPrefixOf (lowerStr url) then
    net.tcp (rtmpHostPort url).1 (rtmpHostPort url).2 =
      TcpOutcome.exc (str "timed out")
  else if containsSub (str "douyu") url || containsSub (str "huya") url ||
      containsSub (str "bilibili") url then
    net.getStream url = StreamOutcome.timeout
  else if (str ".m3u8").isSuffixOf url then
    net.get url = ReqOutcome.timeout
  else net.head url = ReqOutcome.timeout

/-- The message `test_stream` reports when the decisive request times out. -/
def timeoutMsg (url : PyStr) : PyStr :=
  if (str "rtmp").isPrefixOf (lowerStr url) then
    str "RTMP端口不可达: timed out"
  else str "请求超时"

/-- C1/C4 failing input: a channel whose primary URL probes unavailable
(HTTP 500) with one alternate source URL probing available. -/
def chanC1 : TChan :=
  { url := str "http://p", sources := some [{ url := str "http://a" }],
    test_results := some defaultTR }

def chanC4 : TChan :=
  { url := str "http://p", sources := some [{ url := str "http://a" }],
    test_results := none }

def resMainFail : ℚ ⊕ PyStr := Sum.inr (str "HTTP错误: 500")

def resSrcOk : ℚ ⊕ PyStr := Sum.inl 1

def tsC : PyStr := str "2026-01-01 00:00:00"

/-- The per-URL probe outcomes of the C4 batch. -/
def probeC4 : PyStr → Option (Bool × (ℚ ⊕ PyStr)) := fun u =>
  if u = str "http://p" then some (false, resMainFail)
  else if u = str "http://a" then some (true, resSrcOk)
  else none

/-- C2 counterexample input: two candidates with identical name and group
but different URLs, merged into an empty store. -/
def c2cand1 : AChan :=
  { name := str "CCTV-1", url := str "http://s1/a", tvg_id := [],
    tvg_name := [], tvg_logo := [], group_title := str "News",
    source := none, sources := none }

def c2cand2 : AChan :=
  { name := str "CCTV-1", url := str "http://s2/b", tvg_id := [],
    tvg_name := [], tvg_logo := [], group_title := str "News",
    source := none, sources := none }

/-- A one-channel store used by witnesses. -/
def storeW : List AChan :=
  [{ name := str "ESPN", url := str "http://w/espn", tvg_id := [],
     tvg_name := [], tvg_logo := [], group_title := str "Sports",
     source := none, sources := none }]

/-- C3 counterexample store: the fuzzy match "abcf" (similarity 3/4) comes
before the exact match "abcd" in store order. -/
def storeC3 : List AChan :=
  [{ name := str "abcf", url := str "http://u1", tvg_id := [],
     tvg_name := [], tvg_logo := [], group_title := str "G",
     source := none, sources := none },
   { name := str "abcd", url := str "http://u2", tvg_id := [],
     tvg_name := [], tvg_logo := [], group_title := str "G",
     source := none, sources := none }]

def candC3 : AChan :=
  { name := str "abcd", url := str "http://u3", tvg_id := [],
    tvg_name := [], tvg_logo := [], group_title := str "G",
    source := none, sources := none }

/-- C9 counterexample oracle: the playlist fetch succeeds with one segment
reference, but every segment HEAD (and any other request) times out. -/
def netC9 : Net :=
  { head := fun _ => ReqOutcome.timeout
    get := fun u =>
      if u = str "http://x/a.m3u8" then ReqOutcome.ok 200 (str "seg1.ts")
      else ReqOutcome.timeout
    getStream := fun _ => StreamOutcome.timeout
    tcp := fun _ _ => TcpOutcome.exc (str "timed out")
    elapsed := 1 }

/-!
## Lemmas: reflexivity of the SequenceMatcher ratio

`find_longest_match` on two copies of the same string returns the whole
string as the best block: the chain along the diagonal reaches length
`i + 1` in row `i`, and no off-diagonal chain can beat it.
-/

theorem rowLoop_append (j2len : Nat → Nat) (i n : Nat) (Q1 Q2 : List Nat)
    (h1 : ∀ j ∈ Q1, j < n) (acc : Nat → Nat) (st : FlmSt) :
    rowLoop j2len i 0 n (Q1 ++ Q2) acc st =
      rowLoop j2len i 0 n Q2 (rowLoop j2len i 0 n Q1 acc st).1
        (rowLoop j2len i 0 n Q1 acc st).2 := by
  induction Q1 generalizing acc st with
  | nil => simp [rowLoop]
  | cons j js ih =>
    have hj : j < n := h1 j (by simp)
    simp only [List.cons_append, rowLoop, Nat.not_lt_zero, if_false,
      if_neg (by omega : ¬ n ≤ j)]
    exact ih (fun j2 hj2 => h1 j2 (by simp [hj2])) _ _

theorem rowLoop_state_const (j2len : Nat → Nat) (i n : Nat) (Q : List Nat)
    (acc : Nat → Nat) (st : FlmSt)
    (h : ∀ j ∈ Q, chainLen j2len j ≤ st.bestsize) :
    (rowLoop j2len i 0 n Q acc st).2 = st := by
  induction Q generalizing acc with
  | nil => simp [rowLoop]
  | cons j js ih =>
    by_cases hn : n ≤ j
    · simp [rowLoop, hn]
    · have hk : ¬ st.bestsize < chainLen j2len j := by
        have := h j (by simp); omega
      simp only [rowLoop, Nat.not_lt_zero, if_false, if_neg hn, if_neg hk]
      exact ih _ (fun j2 hj2 => h j2 (by simp [hj2]))

theorem rowLoop_acc_notmem (j2len : Nat → Nat) (i n : Nat) (Q : List Nat)
    (acc : Nat → Nat) (st : FlmSt) (j0 : Nat) (h : j0 ∉ Q) :
    (rowLoop j2len i 0 n Q acc st).1 j0 = acc j0 := by
  induction Q generalizing acc st with
  | nil => simp [rowLoop]
  | cons j js ih =>
    have hj0 : j0 ≠ j := by intro e; exact h (by simp [e])
    have hrest : j0 ∉ js := fun hm => h (by simp [hm])
    by_cases hn : n ≤ j
    · simp [rowLoop, hn]
    · simp only [rowLoop, Nat.not_lt_zero, if_false, if_neg hn]
      rw [ih _ _ hrest]
      simp [hj0]

theorem rowLoop_acc_mem (j2len : Nat → Nat) (i n : Nat) (Q : List Nat)
    (acc : Nat → Nat) (st : FlmSt) (j0 : Nat) (hmem : j0 ∈ Q)
    (hlt : ∀ j ∈ Q, j < n) :
    (rowLoop j2len i 0 n Q acc st).1 j0 = chainLen j2len j0 := by
  induction Q generalizing acc st with
  | nil => simp at hmem
  | cons j js ih =>
    have hj : j < n := hlt j (by simp)
    simp only [rowLoop, Nat.not_lt_zero, if_false, if_neg (by omega : ¬ n ≤ j)]
    by_cases hrest : j0 ∈ js
    · exact ih _ _ hrest (fun j2 hj2 => hlt j2 (by simp [hj2]))
    · have : j0 = j := by
        rcases List.mem_cons.mp hmem with h | h
        · exact h
        · exact absurd h hrest
      subst this
      rw [rowLoop_acc_notmem _ _ _ _ _ _ _ hrest]
      simp

theorem posOf_mem (b : PyStr) (c : Char) (j : Nat) :
    j ∈ posOf b c ↔ j < b.length ∧ b.getD j ' ' = c := by
  simp [posOf, List.mem_filter, List.mem_range]

theorem chainLen_le (j2len : Nat → Nat) (i j : Nat)
    (hb : ∀ j2, j2len j2 ≤ min i (j2 + 1)) :
    chainLen j2len j ≤ min (i + 1) (j + 1) := by
  unfold chainLen
  by_cases h0 : j = 0
  · simp [h0]
  · have := hb (j - 1)
    simp only [if_neg h0]
    omega

theorem rowLoop_cons_lt (j2len : Nat → Nat) (i n j : Nat) (js : List Nat)
    (acc : Nat → Nat) (st : FlmSt) (hj : j < n) :
    rowLoop j2len i 0 n (j :: js) acc st =
      rowLoop j2len i 0 n js
        (fun j2 => if j2 = j then chainLen j2len j else acc j2)
        (if st.bestsize < chainLen j2len j then
          ⟨i + 1 - chainLen j2len j, j + 1 - chainLen j2len j,
            chainLen j2len j⟩
        else st) := by
  simp only [rowLoop, Nat.not_lt_zero, if_false, if_neg (by omega : ¬ n ≤ j)]

theorem range'_split (i n : Nat) (hi : i < n) :
    List.range' 0 n = List.range' 0 i ++ i :: List.range' (i + 1) (n - (i + 1)) := by
  have e1 : n = i + (n - i) := by omega
  have e2 : List.range' 0 i ++ List.range' i (n - i) = List.range' 0 n := by
    have := List.range'_append 0 i (n - i) 1
    simp only [Nat.zero_add, Nat.one_mul] at this
    rw [this]; congr 1; omega
  rw [← e2]
  congr 1
  have e3 : n - i = (n - (i + 1)) + 1 := by omega
  rw [e3, List.range'_succ]

theorem rowMain (x : PyStr) (n i : Nat) (hn : n = x.length) (hi : i < n)
    (j2len : Nat → Nat) (hb : ∀ j, j2len j ≤ min i (j + 1))
    (ha : i = 0 ∨ j2len (i - 1) = i) :
    (rowLoop j2len i 0 n (posOf x (x.getD i ' ')) (fun _ => 0) ⟨0, 0, i⟩).2 =
        ⟨0, 0, i + 1⟩ ∧
      (∀ j, (rowLoop j2len i 0 n (posOf x (x.getD i ' ')) (fun _ => 0)
          ⟨0, 0, i⟩).1 j ≤ min (i + 1) (j + 1)) ∧
      (rowLoop j2len i 0 n (posOf x (x.getD i ' ')) (fun _ => 0)
          ⟨0, 0, i⟩).1 i = i + 1 := by
  have hki : chainLen j2len i = i + 1 := by
    unfold chainLen
    by_cases h0 : i = 0
    · simp [h0]
    · rcases ha with h0a | hA
      · exact absurd h0a h0
      · simp [if_neg h0, hA]
  have hmemlt : ∀ j ∈ posOf x (x.getD i ' '), j < n := by
    intro j hj; exact hn ▸ ((posOf_mem _ _ _).mp hj).1
  set p := fun j => decide (x.getD j ' ' = x.getD i ' ') with hp
  have hsplit : posOf x (x.getD i ' ') =
      (List.range' 0 i).filter p ++
      i :: (List.range' (i + 1) (n - (i + 1))).filter p := by
    unfold posOf
    rw [List.range_eq_range', ← hn, range'_split i n hi, List.filter_append]
    congr 1
    simp [hp]
  have hQlo : ∀ j ∈ (List.range' 0 i).filter p, j < i := by
    intro j hj
    have := List.mem_range'.mp (List.mem_filter.mp hj).1
    omega
  have hQhi : ∀ j ∈ (List.range' (i + 1) (n - (i + 1))).filter p,
      i + 1 ≤ j ∧ j < n := by
    intro j hj
    have := List.mem_range'.mp (List.mem_filter.mp hj).1
    omega
  have hchlo : ∀ j ∈ (List.range' 0 i).filter p,
      chainLen j2len j ≤ (⟨0, 0, i⟩ : FlmSt).bestsize := by
    intro j hj
    have hjlt := hQlo j hj
    have := chainLen_le j2len i j hb
    simp only
    omega
  have hchhi : ∀ j ∈ (List.range' (i + 1) (n - (i + 1))).filter p,
      chainLen j2len j ≤ (⟨0, 0, i + 1⟩ : FlmSt).bestsize := by
    intro j hj
    have := chainLen_le j2len i j hb
    simp only
    omega
  have happ := rowLoop_append j2len i n ((List.range' 0 i).filter p)
    (i :: (List.range' (i + 1) (n - (i + 1))).filter p)
    (fun j hj => lt_trans (hQlo j hj) hi) (fun _ => 0) ⟨0, 0, i⟩
  have hstlo := rowLoop_state_const j2len i n ((List.range' 0 i).filter p)
    (fun _ => 0) ⟨0, 0, i⟩ hchlo
  refine ⟨?_, ?_, ?_⟩
  · rw [hsplit, happ, hstlo,
      rowLoop_cons_lt j2len i n i _ _ _ hi, hki,
      if_pos (by simp only; omega)]
    have : (⟨i + 1 - (i + 1), i + 1 - (i + 1), i + 1⟩ : FlmSt) =
        ⟨0, 0, i + 1⟩ := by simp
    rw [this, rowLoop_state_const j2len i n _ _ _ hchhi]
  · intro j
    by_cases hmem : j ∈ posOf x (x.getD i ' ')
    · rw [rowLoop_acc_mem _ _ _ _ _ _ _ hmem hmemlt]
      exact chainLen_le j2len i j hb
    · rw [rowLoop_acc_notmem _ _ _ _ _ _ _ hmem]
      simp
  · have hmem : i ∈ posOf x (x.getD i ' ') := by
      rw [posOf_mem]; exact ⟨hn ▸ hi, rfl⟩
    rw [rowLoop_acc_mem _ _ _ _ _ _ _ hmem hmemlt, hki]

theorem flmRows_self (x : PyStr) (n : Nat) (hn : n = x.length) :
    ∀ m i j2len, i + m = n →
      (∀ j, j2len j ≤ min i (j + 1)) → (i = 0 ∨ j2len (i - 1) = i) →
      flmRows x x 0 n (List.range' i m) j2len ⟨0, 0, i⟩ = ⟨0, 0, n⟩ := by
  intro m
  induction m with
  | zero =>
    intro i j2len him _ _
    have hin : i = n := by omega
    subst hin
    rfl
  | succ m ih =>
    intro i j2len him hb ha
    have hi : i < n := by omega
    rw [List.range'_succ, flmRows]
    obtain ⟨h1, h2, h3⟩ := rowMain x n i hn hi j2len hb ha
    rw [h1]
    exact ih (i + 1) _ (by omega) h2 (Or.inr (by simpa using h3))

theorem extLeftAux_stuck (a b : PyStr) (alo blo fuel : Nat) (st : FlmSt)
    (h : ¬ alo < st.besti) : extLeftAux a b alo blo fuel st = st := by
  cases fuel with
  | zero => rfl
  | succ f =>
    rw [extLeftAux, if_neg]
    intro hcon
    exact h hcon.1

theorem extRightAux_stuck (a b : PyStr) (ahi bhi fuel : Nat) (st : FlmSt)
    (h : ¬ st.besti + st.bestsize < ahi) :
    extRightAux a b ahi bhi fuel st = st := by
  cases fuel with
  | zero => rfl
  | succ f =>
    rw [extRightAux, if_neg]
    intro hcon
    exact h hcon.1

theorem flm_self (x : PyStr) :
    flm x x 0 x.length 0 x.length = ⟨0, 0, x.length⟩ := by
  have hrows : flmRows x x 0 x.length (List.range' 0 (x.length - 0))
      (fun _ => 0) ⟨0, 0, 0⟩ = ⟨0, 0, x.length⟩ := by
    have h0 : x.length - 0 = x.length := by omega
    rw [h0]
    exact flmRows_self x x.length rfl x.length 0 (fun _ => 0) (by omega)
      (fun j => by simp) (Or.inl rfl)
  show extRight x x x.length x.length (extLeft x x 0 0
    (flmRows x x 0 x.length (List.range' 0 (x.length - 0)) (fun _ => 0)
      ⟨0, 0, 0⟩)) = _
  rw [hrows]
  have hL : extLeft x x 0 0 ⟨0, 0, x.length⟩ = ⟨0, 0, x.length⟩ := rfl
  rw [hL]
  unfold extRight
  exact extRightAux_stuck x x x.length x.length x.length _ (by simp)

theorem flm_emptyRange (a b : PyStr) (alo blo bhi : Nat) :
    flm a b alo alo blo bhi = ⟨alo, blo, 0⟩ := by
  have h0 : List.range' alo (alo - alo) = [] := by
    have he : alo - alo = 0 := by omega
    rw [he]; rfl
  show extRight a b alo bhi (extLeft a b alo blo
    (flmRows a b blo bhi (List.range' alo (alo - alo)) (fun _ => 0)
      ⟨alo, blo, 0⟩)) = _
  rw [h0]
  have hrows : flmRows a b blo bhi [] (fun _ => 0) ⟨alo, blo, 0⟩ =
      ⟨alo, blo, 0⟩ := rfl
  rw [hrows]
  have hL : extLeft a b alo blo ⟨alo, blo, 0⟩ = ⟨alo, blo, 0⟩ := by
    unfold extLeft
    exact extLeftAux_stuck a b alo blo _ _ (by simp)
  rw [hL]
  unfold extRight
  exact extRightAux_stuck a b alo bhi _ _ (by simp)

theorem matchedTotal_emptyRange (a b : PyStr) (fuel alo blo bhi : Nat) :
    matchedTotal a b fuel alo alo blo bhi = 0 := by
  cases fuel with
  | zero => rfl
  | succ f =>
    rw [matchedTotal]
    simp [flm_emptyRange]

theorem pyMatches_self (x : PyStr) : pyMatches x x = x.length := by
  unfold pyMatches
  rw [matchedTotal]
  rw [flm_self]
  by_cases h0 : x.length = 0
  · simp [h0]
  · rw [if_neg (by simpa using h0)]
    have e1 : matchedTotal x x (x.length + x.length) 0
        (⟨0, 0, x.length⟩ : FlmSt).besti 0
        (⟨0, 0, x.length⟩ : FlmSt).bestj = 0 :=
      matchedTotal_emptyRange x x _ 0 0 _
    have e2 : matchedTotal x x (x.length + x.length)
        ((⟨0, 0, x.length⟩ : FlmSt).besti +
          (⟨0, 0, x.length⟩ : FlmSt).bestsize) x.length
        ((⟨0, 0, x.length⟩ : FlmSt).bestj +
          (⟨0, 0, x.length⟩ : FlmSt).bestsize) x.length = 0 := by
      have hb : (⟨0, 0, x.length⟩ : FlmSt).besti +
          (⟨0, 0, x.length⟩ : FlmSt).bestsize = x.length := by simp
      rw [hb]
      exact matchedTotal_emptyRange x x _ _ _ _
    simp only at e1 e2 ⊢
    rw [e1, e2]
    simp

theorem pyRatio_self (x : PyStr) : pyRatio x x = 1 := by
  unfold pyRatio
  by_cases h0 : x.length + x.length = 0
  · rw [if_pos h0]
  · rw [if_neg h0, pyMatches_self]
    rw [Rat.mkRat_eq_div]
    have hne : ((x.length + x.length : Nat) : ℚ) ≠ 0 := by
      exact_mod_cast h0
    rw [show ((2 * x.length : Int) : ℚ) = ((x.length + x.length : Nat) : ℚ) by
      push_cast; ring]
    exact div_self hne

/-!
## Lemmas: matcher and merge
-/

theorem normName_eq_of_lower_eq {a b : PyStr} (h : lowerStr a = lowerStr b) :
    normName a = normName b := by
  unfold normName
  rw [h]

theorem nameSimilarity_eq_one_of_norm_eq {a b : PyStr}
    (h : normName a = normName b) : nameSimilarity a b = 1 := by
  unfold nameSimilarity
  rw [h]
  exact pyRatio_self _

/-- Under the byName policy a channel matches iff its raw lowercased name
equals the candidate's or the normalized-name similarity reaches the
threshold. -/
theorem chanMatches_name_iff (ch c : AChan) (θ : ℚ) :
    chanMatches ch c MatchBy.name θ = true ↔
      (lowerStr ch.name = lowerStr c.name ∨
        θ ≤ nameSimilarity ch.name c.name) := by
  unfold chanMatches
  have hpol : ¬ ((MatchBy.name = MatchBy.tvg_id ∨ MatchBy.name = MatchBy.both) ∧
      c.tvg_id ≠ [] ∧ ch.tvg_id = c.tvg_id) := by
    rintro ⟨h1 | h1, -⟩ <;> exact MatchBy.noConfusion h1
  rw [if_neg hpol]
  by_cases hname : lowerStr ch.name = lowerStr c.name ∨
      θ ≤ nameSimilarity ch.name c.name
  · rw [if_pos ⟨Or.inl rfl, hname⟩]
    simpa using hname
  · rw [if_neg (by rintro ⟨-, h2⟩; exact hname h2)]
    simpa using hname

/-- Matching under byName inspects the stored channel only through its
name. -/
theorem chanMatches_name_congr {ch ch' : AChan} (c : AChan) (θ : ℚ)
    (h : ch.name = ch'.name) :
    chanMatches ch c MatchBy.name θ = chanMatches ch' c MatchBy.name θ := by
  have h1 := chanMatches_name_iff ch c θ
  have h2 := chanMatches_name_iff ch' c θ
  rw [h] at h1
  cases hb : chanMatches ch' c MatchBy.name θ
  · cases hb2 : chanMatches ch c MatchBy.name θ
    · rfl
    · exact absurd (h2.mpr (h1.mp hb2)) (by simp [hb])
  · exact h1.mpr (h2.mp hb)

/-- Any channel byName-matches a candidate with the same raw name,
whatever the threshold (the exact-equality disjunct). -/
theorem chanMatches_self_name (ch c : AChan) (θ : ℚ) (h : ch.name = c.name) :
    chanMatches ch c MatchBy.name θ = true :=
  (chanMatches_name_iff ch c θ).mpr (Or.inl (by rw [h]))

/-- With a threshold ≤ 1, two candidates with equal normalized names are
byName-matched by exactly the same stored channels: an exact match on one
forces equal normalized names, hence similarity 1 ≥ θ on the other. -/
theorem chanMatches_norm_congr (ch : AChan) {c1 c2 : AChan} (θ : ℚ)
    (hθ : θ ≤ 1) (hnorm : normName c1.name = normName c2.name) :
    chanMatches ch c1 MatchBy.name θ = chanMatches ch c2 MatchBy.name θ := by
  have hsim : nameSimilarity ch.name c1.name = nameSimilarity ch.name c2.name := by
    unfold nameSimilarity
    rw [hnorm]
  have key : ∀ d1 d2 : AChan, normName d1.name = normName d2.name →
      nameSimilarity ch.name d1.name = nameSimilarity ch.name d2.name →
      chanMatches ch d1 MatchBy.name θ = true →
      chanMatches ch d2 MatchBy.name θ = true := by
    intro d1 d2 hn hs h1
    rcases (chanMatches_name_iff ch d1 θ).mp h1 with hx | hf
    · -- exact on d1 ⇒ normalized names all equal ⇒ similarity 1 on d2
      have : normName ch.name = normName d2.name :=
        (normName_eq_of_lower_eq hx).trans hn
      exact (chanMatches_name_iff ch d2 θ).mpr
        (Or.inr (by rw [nameSimilarity_eq_one_of_norm_eq this]; exact hθ))
    · exact (chanMatches_name_iff ch d2 θ).mpr (Or.inr (hs ▸ hf))
  cases hb : chanMatches ch c2 MatchBy.name θ
  · cases hb1 : chanMatches ch c1 MatchBy.name θ
    · rfl
    · exact absurd (key c1 c2 hnorm hsim hb1) (by simp [hb])
  · exact key c2 c1 hnorm.symm hsim.symm hb

theorem findMatchIdxAux_none_iff (c : AChan) (mb : MatchBy) (θ : ℚ) :
    ∀ (l : List AChan) (k : Nat),
      findMatchIdxAux c mb θ l k = none ↔
        ∀ ch ∈ l, chanMatches ch c mb θ = false := by
  intro l
  induction l with
  | nil => simp [findMatchIdxAux]
  | cons ch rest ih =>
    intro k
    by_cases hm : chanMatches ch c mb θ
    · simp [findMatchIdxAux, hm]
    · simp only [findMatchIdxAux, if_neg hm]
      rw [ih (k + 1)]
      constructor
      · intro h ch2 hch2
        rcases List.mem_cons.mp hch2 with he | hm2
        · rw [he]; simpa using hm
        · exact h ch2 hm2
      · intro h ch2 hch2
        exact h ch2 (by simp [hch2])

theorem findMatchIdxAux_some_iff (c : AChan) (mb : MatchBy) (θ : ℚ) :
    ∀ (l : List AChan) (k r : Nat),
      findMatchIdxAux c mb θ l k = some r ↔
        ∃ i, i < l.length ∧ r = k + i ∧
          chanMatches (l.getD i default) c mb θ = true ∧
          ∀ j, j < i → chanMatches (l.getD j default) c mb θ = false := by
  intro l
  induction l with
  | nil => simp [findMatchIdxAux]
  | cons ch rest ih =>
    intro k r
    by_cases hm : chanMatches ch c mb θ
    · simp only [findMatchIdxAux, if_pos hm]
      constructor
      · intro h
        refine ⟨0, by simp, by simpa using (Option.some_inj.mp h).symm, by simpa using hm,
          fun j hj => absurd hj (by omega)⟩
      · rintro ⟨i, hi, hr, hmi, hall⟩
        by_cases hi0 : i = 0
        · subst hi0; simp [hr]
        · have := hall 0 (by omega)
          rw [show ((ch :: rest).getD 0 default) = ch from rfl] at this
          exact absurd hm (by simp [this])
    · simp only [findMatchIdxAux, if_neg hm]
      rw [ih (k + 1) r]
      constructor
      · rintro ⟨i, hi, hr, hmi, hall⟩
        refine ⟨i + 1, by simpa using hi, by omega, by simpa using hmi, ?_⟩
        intro j hj
        cases j with
        | zero => simpa using hm
        | succ j2 => simpa using hall j2 (by omega)
      · rintro ⟨i, hi, hr, hmi, hall⟩
        cases i with
        | zero =>
          rw [show ((ch :: rest).getD 0 default) = ch from rfl] at hmi
          exact absurd hmi (by simp [hm])
        | succ i2 =>
          refine ⟨i2, by simpa using hi, by omega, by simpa using hmi, ?_⟩
          intro j hj
          simpa using hall (j + 1) (by omega)

theorem findMatchIdx_none_iff (l : List AChan) (c : AChan) (mb : MatchBy)
    (θ : ℚ) :
    findMatchIdx l c mb θ = none ↔
      ∀ ch ∈ l, chanMatches ch c mb θ = false :=
  findMatchIdxAux_none_iff c mb θ l 0

theorem findMatchIdx_some_iff (l : List AChan) (c : AChan) (mb : MatchBy)
    (θ : ℚ) (i : Nat) :
    findMatchIdx l c mb θ = some i ↔
      i < l.length ∧ chanMatches (l.getD i default) c mb θ = true ∧
        ∀ j, j < i → chanMatches (l.getD j default) c mb θ = false := by
  rw [findMatchIdx, findMatchIdxAux_some_iff]
  constructor
  · rintro ⟨i2, hi, hr, hmi, hall⟩
    exact ⟨by omega, by rw [show i = i2 by omega]; exact hmi,
      fun j hj => hall j (by omega)⟩
  · rintro ⟨hi, hmi, hall⟩
    exact ⟨i, hi, by omega, hmi, hall⟩

/-- `_update_channel` in closed form: `name`, `url`, `tvg_name`,
`group_title`, `source` are untouched; metadata is filled when falsy; the
candidate URL is appended to the (possibly backfilled) sources unless
present. -/
theorem updateChannel_eq (ex c : AChan) :
    updateChannel ex c =
      { name := ex.name
        url := ex.url
        tvg_id := if ex.tvg_id = [] ∧ c.tvg_id ≠ [] then c.tvg_id else ex.tvg_id
        tvg_name := ex.tvg_name
        tvg_logo :=
          if ex.tvg_logo = [] ∧ c.tvg_logo ≠ [] then c.tvg_logo else ex.tvg_logo
        group_title := ex.group_title
        source := ex.source
        sources := some (
          let base := match ex.sources with
            | none => ([{ url := ex.url, source := some ex.source }] : List SrcRec)
            | some srcs => srcs
          if base.any (fun s => decide (s.url = c.url)) then base
          else base ++ [{ url := c.url, source := some c.source }]) } := by
  unfold updateChannel ensureSources
  cases hs : ex.sources with
  | none =>
    dsimp only
    split <;> split <;> split <;> simp_all
  | some srcs =>
    dsimp only
    split <;> split <;> split <;> simp_all <;>
      rw [if_neg (by push_neg; assumption)]

theorem updateChannel_name (ex c : AChan) :
    (updateChannel ex c).name = ex.name := by
  rw [updateChannel_eq]

theorem updateChannel_url (ex c : AChan) :
    (updateChannel ex c).url = ex.url := by
  rw [updateChannel_eq]

theorem updateChannel_group (ex c : AChan) :
    (updateChannel ex c).group_title = ex.group_title := by
  rw [updateChannel_eq]

theorem updateChannel_tvg_id (ex c : AChan) :
    (updateChannel ex c).tvg_id =
      if ex.tvg_id = [] then c.tvg_id else ex.tvg_id := by
  rw [updateChannel_eq]
  by_cases h1 : ex.tvg_id = []
  · by_cases h2 : c.tvg_id = []
    · simp [h1, h2]
    · simp [h1, h2]
  · simp [h1]

theorem updateChannel_tvg_logo (ex c : AChan) :
    (updateChannel ex c).tvg_logo =
      if ex.tvg_logo = [] then c.tvg_logo else ex.tvg_logo := by
  rw [updateChannel_eq]
  by_cases h1 : ex.tvg_logo = []
  · by_cases h2 : c.tvg_logo = []
    · simp [h1, h2]
    · simp [h1, h2]
  · simp [h1]

/-- The updated channel's sources URL list, explicitly. -/
theorem updateChannel_srcUrls (ex c : AChan) :
    srcUrls (updateChannel ex c) =
      (let base := match ex.sources with
        | none => [ex.url]
        | some srcs => srcs.map SrcRec.url
      if c.url ∈ base then base else base ++ [c.url]) := by
  rw [updateChannel_eq]
  unfold srcUrls
  cases hs : ex.sources with
  | none =>
    dsimp only
    by_cases hmem : c.url = ex.url
    · simp [hmem]
    · simp [Ne.symm hmem, hmem]
  | some srcs =>
    dsimp only
    by_cases hmem : c.url ∈ srcs.map SrcRec.url
    · have hany : (srcs.any fun s => decide (s.url = c.url)) = true := by
        simp only [List.any_eq_true, decide_eq_true_eq]
        rcases List.mem_map.mp hmem with ⟨s, hs2, he⟩
        exact ⟨s, hs2, he⟩
      simp [hmem, hany]
    · have hany : ¬ (srcs.any fun s => decide (s.url = c.url)) = true := by
        simp only [List.any_eq_true, decide_eq_true_eq]
        rintro ⟨s, hs2, he⟩
        exact hmem (List.mem_map.mpr ⟨s, hs2, he⟩)
      simp [hmem, hany]

theorem updateChannel_holds_cand (ex c : AChan) :
    c.url ∈ srcUrls (updateChannel ex c) := by
  rw [updateChannel_srcUrls]
  dsimp only
  cases ex.sources with
  | none =>
    split
    · assumption
    · simp
  | some srcs =>
    split
    · assumption
    · simp

theorem updateChannel_srcUrls_mono (ex c : AChan) (u : PyStr)
    (h : u ∈ srcUrls ex) : u ∈ srcUrls (updateChannel ex c) := by
  rw [updateChannel_srcUrls]
  dsimp only
  cases hs : ex.sources with
  | none =>
    rw [srcUrls, hs] at h
    simp at h
  | some srcs =>
    rw [srcUrls, hs] at h
    simp only [Option.getD_some] at h
    split
    · exact h
    · exact List.mem_append_left _ h

theorem updateChannel_nodup (ex c : AChan) (h : (srcUrls ex).Nodup) :
    (srcUrls (updateChannel ex c)).Nodup := by
  rw [updateChannel_srcUrls]
  dsimp only
  cases hs : ex.sources with
  | none =>
    split
    · simp
    · rename_i hmem
      simp only [List.mem_singleton] at hmem
      simp [Ne.symm hmem, hmem]
  | some srcs =>
    rw [srcUrls, hs] at h
    simp only [Option.getD_some] at h
    split
    · exact h
    · rename_i hmem
      simp [List.nodup_append, h, hmem]

theorem mergeOne_cases (mb : MatchBy) (θ : ℚ) (store : List AChan)
    (c : AChan) :
    (∃ i, i < store.length ∧ findMatchIdx store c mb θ = some i ∧
      mergeOne mb θ store c =
        store.set i (updateChannel (store.getD i default) c)) ∨
    (findMatchIdx store c mb θ = none ∧ mergeOne mb θ store c = store ++ [c]) := by
  unfold mergeOne
  cases hf : findMatchIdx store c mb θ with
  | none => exact Or.inr ⟨rfl, rfl⟩
  | some i =>
    exact Or.inl ⟨i, ((findMatchIdx_some_iff _ _ _ _ _).mp hf).1, rfl, rfl⟩

theorem mergeOne_length_ge (mb : MatchBy) (θ : ℚ) (store : List AChan)
    (c : AChan) : store.length ≤ (mergeOne mb θ store c).length := by
  rcases mergeOne_cases mb θ store c with ⟨i, _, _, he⟩ | ⟨_, he⟩ <;>
    rw [he] <;> simp

theorem mergeOne_getD_name (mb : MatchBy) (θ : ℚ) (store : List AChan)
    (c : AChan) (j : Nat) (hj : j < store.length) :
    ((mergeOne mb θ store c).getD j default).name =
      (store.getD j default).name := by
  rcases mergeOne_cases mb θ store c with ⟨i, hi, _, he⟩ | ⟨_, he⟩
  · rw [he]
    by_cases hij : i = j
    · subst hij
      rw [List.getD_eq_getElem?_getD, List.getElem?_set_self
        (by omega), Option.getD_some, updateChannel_name,
        List.getD_eq_getElem?_getD]
    · rw [List.getD_eq_getElem?_getD, List.getElem?_set_ne hij,
        ← List.getD_eq_getElem?_getD]
  · rw [he, List.getD_eq_getElem?_getD, List.getElem?_append_left hj,
      ← List.getD_eq_getElem?_getD]

theorem mergeFold_length_ge (mb : MatchBy) (θ : ℚ) :
    ∀ (cs store : List AChan),
      store.length ≤ (cs.foldl (mergeOne mb θ) store).length := by
  intro cs
  induction cs with
  | nil => intro store; simp
  | cons c rest ih =>
    intro store
    calc store.length ≤ (mergeOne mb θ store c).length :=
          mergeOne_length_ge mb θ store c
      _ ≤ _ := by simpa using ih (mergeOne mb θ store c)

theorem mergeFold_getD_name (mb : MatchBy) (θ : ℚ) :
    ∀ (cs store : List AChan) (j : Nat), j < store.length →
      ((cs.foldl (mergeOne mb θ) store).getD j default).name =
        (store.getD j default).name := by
  intro cs
  induction cs with
  | nil => intro store j hj; simp
  | cons c rest ih =>
    intro store j hj
    have h1 : j < (mergeOne mb θ store c).length :=
      lt_of_lt_of_le hj (mergeOne_length_ge mb θ store c)
    calc ((rest.foldl (mergeOne mb θ) (mergeOne mb θ store c)).getD j
          default).name
        = ((mergeOne mb θ store c).getD j default).name := ih _ j h1
      _ = (store.getD j default).name := mergeOne_getD_name mb θ store c j hj

/-- After a merge pass, every candidate has a byName match somewhere in the
resulting store: the channel it was merged into (whose name the pass never
changes afterwards) or its own appended copy. -/
theorem mergeFold_match_exists (θ : ℚ) :
    ∀ (cs store : List AChan) (c : AChan), c ∈ cs →
      ∃ j, j < (cs.foldl (mergeOne MatchBy.name θ) store).length ∧
        chanMatches ((cs.foldl (mergeOne MatchBy.name θ) store).getD j
          default) c MatchBy.name θ = true := by
  intro cs
  induction cs with
  | nil => intro store c hc; simp at hc
  | cons c0 rest ih =>
    intro store c hc
    rcases List.mem_cons.mp hc with he | hmem
    · subst he
      simp only [List.foldl_cons]
      rcases mergeOne_cases MatchBy.name θ store c with
        ⟨i, hi, hsome, hstep⟩ | ⟨hnone, hstep⟩
      · -- merged into the stored channel at index i
        have hm := ((findMatchIdx_some_iff _ _ _ _ _).mp hsome).2.1
        have hi1 : i < (mergeOne MatchBy.name θ store c).length := by
          rw [hstep]; simpa using hi
        refine ⟨i, lt_of_lt_of_le hi1 (by
          simpa using mergeFold_length_ge MatchBy.name θ rest _), ?_⟩
        have hname : ((rest.foldl (mergeOne MatchBy.name θ)
            (mergeOne MatchBy.name θ store c)).getD i default).name =
            (store.getD i default).name := by
          rw [mergeFold_getD_name MatchBy.name θ rest _ i hi1]
          exact mergeOne_getD_name MatchBy.name θ store c i hi
        rw [chanMatches_name_congr c θ hname]
        simpa using hm
      · -- appended; the copy matches itself by exact name equality
        have hi1 : store.length < (mergeOne MatchBy.name θ store c).length := by
          rw [hstep]; simp
        refine ⟨store.length, lt_of_lt_of_le hi1 (by
          simpa using mergeFold_length_ge MatchBy.name θ rest _), ?_⟩
        have hname : ((rest.foldl (mergeOne MatchBy.name θ)
            (mergeOne MatchBy.name θ store c)).getD store.length
            default).name = c.name := by
          rw [mergeFold_getD_name MatchBy.name θ rest _ store.length hi1, hstep]
          rw [List.getD_eq_getElem?_getD, List.getElem?_append_right (by omega)]
          simp
        exact chanMatches_self_name _ c θ hname
    · simpa using ih (mergeOne MatchBy.name θ store c0) c hmem

/-- When every candidate already has a match in the store, a merge pass
only updates in place: the store's length (and each channel's name) is
unchanged. -/
theorem mergeFold_length_stable (θ : ℚ) :
    ∀ (cs store : List AChan),
      (∀ c ∈ cs, ∃ j, j < store.length ∧
        chanMatches (store.getD j default) c MatchBy.name θ = true) →
      (cs.foldl (mergeOne MatchBy.name θ) store).length = store.length := by
  intro cs
  induction cs with
  | nil => intro store _; simp
  | cons c0 rest ih =>
    intro store hall
    obtain ⟨j, hj, hm⟩ := hall c0 (by simp)
    have hnotnone : findMatchIdx store c0 MatchBy.name θ ≠ none := by
      intro hn
      have hgd : store.getD j default = store[j] := by
        rw [List.getD_eq_getElem?_getD, List.getElem?_eq_getElem hj]
        rfl
      have := (findMatchIdx_none_iff _ _ _ _).mp hn (store.getD j default)
        (by rw [hgd]; exact List.getElem_mem hj)
      rw [List.getD_eq_getElem?_getD] at hm
      simp [hm] at this
    rcases mergeOne_cases MatchBy.name θ store c0 with
      ⟨i, hi, hsome, hstep⟩ | ⟨hnone, _⟩
    · have hlen : (mergeOne MatchBy.name θ store c0).length = store.length := by
        rw [hstep]; simp
      have hrest : ∀ c ∈ rest, ∃ j2, j2 < (mergeOne MatchBy.name θ store
          c0).length ∧ chanMatches ((mergeOne MatchBy.name θ store c0).getD j2
            default) c MatchBy.name θ = true := by
        intro c hc
        obtain ⟨j2, hj2, hm2⟩ := hall c (by simp [hc])
        refine ⟨j2, by omega, ?_⟩
        rw [chanMatches_name_congr c θ
          (mergeOne_getD_name MatchBy.name θ store c0 j2 hj2)]
        exact hm2
      simp only [List.foldl_cons]
      rw [ih _ hrest, hlen]
    · exact absurd hnone hnotnone

/-- A merge pass never introduces duplicate URLs into any channel's
`sources`: updates add a URL only when absent, appends bring in the
candidate unchanged. -/
theorem mergeFold_nodup (mb : MatchBy) (θ : ℚ) :
    ∀ (cs store : List AChan),
      (∀ ch ∈ store, (srcUrls ch).Nodup) →
      (∀ c ∈ cs, (srcUrls c).Nodup) →
      ∀ ch ∈ cs.foldl (mergeOne mb θ) store, (srcUrls ch).Nodup := by
  intro cs
  induction cs with
  | nil => intro store hst _ ch hch; exact hst ch (by simpa using hch)
  | cons c0 rest ih =>
    intro store hst hcs ch hch
    simp only [List.foldl_cons] at hch
    refine ih (mergeOne mb θ store c0) ?_ (fun c hc => hcs c (by simp [hc]))
      ch hch
    intro ch2 hch2
    rcases mergeOne_cases mb θ store c0 with ⟨i, hi, _, hstep⟩ | ⟨_, hstep⟩
    · rw [hstep] at hch2
      rcases List.mem_or_eq_of_mem_set hch2 with hin | he
      · exact hst ch2 hin
      · rw [he]
        refine updateChannel_nodup _ _ ?_
        have hgd : store.getD i default = store[i] := by
          rw [List.getD_eq_getElem?_getD, List.getElem?_eq_getElem hi]
          rfl
        rw [hgd]
        exact hst _ (List.getElem_mem hi)
    · rw [hstep] at hch2
      rcases List.mem_append.mp hch2 with hin | he
      · exact hst ch2 hin
      · rw [List.mem_singleton.mp he]
        exact hcs c0 (by simp)

theorem set_getD_self {α : Type} [Inhabited α] :
    ∀ (l : List α) (i : Nat), i < l.length →
      l.set i (l.getD i default) = l := by
  intro l
  induction l with
  | nil => intro i hi; simp at hi
  | cons a rest ih =>
    intro i hi
    cases i with
    | zero => rfl
    | succ i2 =>
      simp only [List.set_cons_succ, List.cons.injEq, true_and]
      exact ih i2 (by simpa using hi)

set_option maxHeartbeats 1000000 in
/-- With threshold ≤ 1 a byName merge pass preserves pairwise-distinct
normalized names: appending only happens when nothing matches, and a
normalized-name twin would match with similarity 1. -/
theorem mergeFold_pairwise_norm (θ : ℚ) (hθ : θ ≤ 1) :
    ∀ (cs store : List AChan),
      (store.map (fun ch => normName ch.name)).Pairwise (· ≠ ·) →
      ((cs.foldl (mergeOne MatchBy.name θ) store).map
        (fun ch => normName ch.name)).Pairwise (· ≠ ·) := by
  intro cs
  induction cs with
  | nil => intro store h; simpa using h
  | cons c0 rest ih =>
    intro store h
    simp only [List.foldl_cons]
    refine ih (mergeOne MatchBy.name θ store c0) ?_
    rcases mergeOne_cases MatchBy.name θ store c0 with
      ⟨i, hi, _, hstep⟩ | ⟨hnone, hstep⟩
    · rw [hstep, List.map_set, updateChannel_name]
      have hgd0 : store.getD i default = store[i] := by
        rw [List.getD_eq_getElem?_getD, List.getElem?_eq_getElem hi]
        rfl
      have hgd : (store.map (fun ch => normName ch.name)).getD i default =
          normName (store.getD i default).name := by
        rw [List.getD_eq_getElem?_getD, List.getElem?_map,
          List.getElem?_eq_getElem hi, hgd0]
        simp
      have hset : (store.map (fun ch => normName ch.name)).set i
          (normName (store.getD i default).name) =
          store.map (fun ch => normName ch.name) := by
        rw [← hgd]
        exact set_getD_self _ i (by simpa using hi)
      rw [hset]
      exact h
    · rw [hstep, List.map_append]
      rw [List.pairwise_append]
      refine ⟨h, List.pairwise_singleton _ _, ?_⟩
      intro a ha b hb
      have hb2 : b = normName c0.name := List.mem_singleton.mp hb
      rcases List.mem_map.mp ha with ⟨ch, hch, he⟩
      rw [hb2, ← he]
      intro heq
      have hm : chanMatches ch c0 MatchBy.name θ = true :=
        (chanMatches_name_iff ch c0 θ).mpr (Or.inr (by
          rw [nameSimilarity_eq_one_of_norm_eq heq]; exact hθ))
      have := (findMatchIdx_none_iff _ _ _ _).mp hnone ch hch
      simp [hm] at this

theorem mergeOne_eq_of_some (mb : MatchBy) (θ : ℚ) (store : List AChan)
    (c : AChan) (i : Nat) (h : findMatchIdx store c mb θ = some i) :
    mergeOne mb θ store c =
      store.set i (updateChannel (store.getD i default) c) := by
  unfold mergeOne
  rw [h]

theorem mergeOne_eq_of_none (mb : MatchBy) (θ : ℚ) (store : List AChan)
    (c : AChan) (h : findMatchIdx store c mb θ = none) :
    mergeOne mb θ store c = store ++ [c] := by
  unfold mergeOne
  rw [h]

/-- Merging two candidates with the same normalized name into a nonempty
store routes both into one common channel, which afterwards holds both
URLs. -/
theorem mergeTwo_common (store : List AChan) (c1 c2 : AChan) (θ : ℚ)
    (hθ : θ ≤ 1) (hnorm : normName c1.name = normName c2.name) :
    ∃ j, j < (mergeOne MatchBy.name θ (mergeOne MatchBy.name θ store c1)
        c2).length ∧
      holdsUrl ((mergeOne MatchBy.name θ (mergeOne MatchBy.name θ store c1)
        c2).getD j default) c1.url ∧
      holdsUrl ((mergeOne MatchBy.name θ (mergeOne MatchBy.name θ store c1)
        c2).getD j default) c2.url := by
  rcases mergeOne_cases MatchBy.name θ store c1 with
    ⟨i, hi, hsome, hstep⟩ | ⟨hnone, hstep⟩
  · -- c1 was merged into the channel at index i; c2 follows it there
    obtain ⟨-, hm1, hall1⟩ := (findMatchIdx_some_iff _ _ _ _ _).mp hsome
    have hgetD : (mergeOne MatchBy.name θ store c1).getD i default =
        updateChannel (store.getD i default) c1 := by
      rw [hstep, List.getD_eq_getElem?_getD,
        List.getElem?_set_self (by simpa using hi)]
      rfl
    have hname : ((mergeOne MatchBy.name θ store c1).getD i default).name =
        (store.getD i default).name := by
      rw [hgetD, updateChannel_name]
    have hsome2 : findMatchIdx (mergeOne MatchBy.name θ store c1) c2
        MatchBy.name θ = some i := by
      rw [findMatchIdx_some_iff]
      refine ⟨by rw [hstep]; simpa using hi, ?_, ?_⟩
      · rw [chanMatches_name_congr c2 θ hname,
          ← chanMatches_norm_congr _ θ hθ hnorm]
        exact hm1
      · intro j hj
        have hgj : (mergeOne MatchBy.name θ store c1).getD j default =
            store.getD j default := by
          rw [hstep, List.getD_eq_getElem?_getD,
            List.getElem?_set_ne (by omega), ← List.getD_eq_getElem?_getD]
        rw [hgj, ← chanMatches_norm_congr _ θ hθ hnorm]
        exact hall1 j hj
    have hstep2 := mergeOne_eq_of_some MatchBy.name θ
      (mergeOne MatchBy.name θ store c1) c2 i hsome2
    have hilt : i < (mergeOne MatchBy.name θ store c1).length := by
      rw [hstep]; simpa using hi
    have hfinal : (mergeOne MatchBy.name θ (mergeOne MatchBy.name θ store c1)
        c2).getD i default =
        updateChannel (updateChannel (store.getD i default) c1) c2 := by
      rw [hstep2, List.getD_eq_getElem?_getD,
        List.getElem?_set_self (by simpa using hilt), Option.getD_some, hgetD]
    refine ⟨i, by rw [hstep2]; simpa using hilt, ?_, ?_⟩
    · rw [hfinal]
      exact Or.inr (updateChannel_srcUrls_mono _ _ _
        (updateChannel_holds_cand _ _))
    · rw [hfinal]
      exact Or.inr (updateChannel_holds_cand _ _)
  · -- c1 was appended; c2 merges into the appended copy
    have hgetD : (mergeOne MatchBy.name θ store c1).getD store.length
        default = c1 := by
      rw [hstep, List.getD_eq_getElem?_getD,
        List.getElem?_append_right (by omega)]
      simp
    have hsome2 : findMatchIdx (mergeOne MatchBy.name θ store c1) c2
        MatchBy.name θ = some store.length := by
      rw [findMatchIdx_some_iff]
      refine ⟨by rw [hstep]; simp, ?_, ?_⟩
      · rw [hgetD]
        exact (chanMatches_name_iff c1 c2 θ).mpr (Or.inr (by
          rw [nameSimilarity_eq_one_of_norm_eq hnorm]; exact hθ))
      · intro j hj
        have hgj : (mergeOne MatchBy.name θ store c1).getD j default =
            store.getD j default := by
          rw [hstep, List.getD_eq_getElem?_getD,
            List.getElem?_append_left hj, ← List.getD_eq_getElem?_getD]
        have hgd : store.getD j default = store[j] := by
          rw [List.getD_eq_getElem?_getD, List.getElem?_eq_getElem hj]
          rfl
        rw [hgj, ← chanMatches_norm_congr _ θ hθ hnorm, hgd]
        exact (findMatchIdx_none_iff _ _ _ _).mp hnone _ (List.getElem_mem hj)
    have hstep2 := mergeOne_eq_of_some MatchBy.name θ
      (mergeOne MatchBy.name θ store c1) c2 store.length hsome2
    rw [hgetD] at hstep2
    have hlen1 : store.length < (mergeOne MatchBy.name θ store c1).length := by
      rw [hstep]; simp
    have hfinal : (mergeOne MatchBy.name θ (mergeOne MatchBy.name θ store c1)
        c2).getD store.length default = updateChannel c1 c2 := by
      rw [hstep2, List.getD_eq_getElem?_getD,
        List.getElem?_set_self (by simpa using hlen1), Option.getD_some]
    refine ⟨store.length, by rw [hstep2]; simpa using hlen1, ?_, ?_⟩
    · rw [hfinal]
      exact Or.inl (updateChannel_url c1 c2)
    · rw [hfinal]
      exact Or.inr (updateChannel_holds_cand _ _)

theorem aggregateChannels_nil (cs : List AChan) (mb : MatchBy) (θ : ℚ) :
    aggregateChannels [] cs mb θ = cs := by
  unfold aggregateChannels
  rw [if_pos rfl]

theorem aggregateChannels_ne (store cs : List AChan) (mb : MatchBy) (θ : ℚ)
    (h : store ≠ []) :
    aggregateChannels store cs mb θ = cs.foldl (mergeOne mb θ) store := by
  unfold aggregateChannels
  rw [if_neg h]

/-!
## Lemmas: batch_test
-/

theorem ensureTR_isSome (ch : TChan) : (ensureTR ch).test_results.isSome := by
  cases h : ch.test_results <;> simp [ensureTR, h]

theorem applyResult_length (probe : PyStr → Option (Bool × (ℚ ⊕ PyStr)))
    (ts : PyStr) (tasks : List (Nat × PyStr × PyStr)) (chans : List TChan)
    (oi : Nat) : (applyResult probe ts tasks chans oi).length = chans.length := by
  unfold applyResult
  cases ht : tasks.get? oi with
  | none => rfl
  | some t =>
    obtain ⟨j, url, role⟩ := t
    dsimp only
    cases hp : probe url with
    | none => rfl
    | some r => simp

theorem applyResult_getD_untouched
    (probe : PyStr → Option (Bool × (ℚ ⊕ PyStr))) (ts : PyStr)
    (tasks : List (Nat × PyStr × PyStr)) (chans : List TChan) (oi i : Nat)
    (h : ∀ t, tasks.get? oi = some t → t.1 = i → probe t.2.1 = none) :
    (applyResult probe ts tasks chans oi).getD i default =
      chans.getD i default := by
  unfold applyResult
  cases ht : tasks.get? oi with
  | none => rfl
  | some t =>
    obtain ⟨j, url, role⟩ := t
    dsimp only
    by_cases hij : j = i
    · rw [h ⟨j, url, role⟩ ht hij]
    · cases hp : probe url with
      | none => rfl
      | some r =>
        rw [List.getD_eq_getElem?_getD, List.getElem?_set_ne hij,
          ← List.getD_eq_getElem?_getD]

theorem foldResults_getD_untouched
    (probe : PyStr → Option (Bool × (ℚ ⊕ PyStr))) (ts : PyStr)
    (tasks : List (Nat × PyStr × PyStr)) (i : Nat) :
    ∀ (order : List Nat) (acc : List TChan),
      (∀ oi ∈ order, ∀ t, tasks.get? oi = some t → t.1 = i →
        probe t.2.1 = none) →
      (order.foldl (applyResult probe ts tasks) acc).getD i default =
        acc.getD i default := by
  intro order
  induction order with
  | nil => intro acc _; rfl
  | cons oi rest ih =>
    intro acc hall
    simp only [List.foldl_cons]
    rw [ih _ (fun oi2 h2 => hall oi2 (by simp [h2]))]
    exact applyResult_getD_untouched probe ts tasks acc oi i
      (hall oi (by simp))

theorem foldResults_length (probe : PyStr → Option (Bool × (ℚ ⊕ PyStr)))
    (ts : PyStr) (tasks : List (Nat × PyStr × PyStr)) :
    ∀ (order : List Nat) (acc : List TChan),
      (order.foldl (applyResult probe ts tasks) acc).length = acc.length := by
  intro order
  induction order with
  | nil => intro acc; rfl
  | cons oi rest ih =>
    intro acc
    simp only [List.foldl_cons]
    rw [ih, applyResult_length]

theorem mapGetD {α β : Type} [Inhabited α] [Inhabited β] (f : α → β)
    (l : List α) (i : Nat) (hi : i < l.length) :
    (l.map f).getD i default = f (l.getD i default) := by
  rw [List.getD_eq_getElem?_getD, List.getElem?_map,
    List.getElem?_eq_getElem hi, List.getD_eq_getElem?_getD,
    List.getElem?_eq_getElem hi]
  rfl

/-!
## Claim theorems
-/

/-- C1 (code_bug demonstration): `_update_test_result` is not
order-independent. For the fixed per-URL results "primary `http://p`
unavailable (HTTP 500), alternate `http://a` available", applying the
primary result first leaves the channel online, while applying the
alternate result first ends offline with no working URL: the unavailable
`main` branch unconditionally overwrites an `online` state that an
alternate had established, contradicting the claimed permutation
invariance (and the source's own comment that the offline state is
temporary pending source results). -/
theorem c1_update_order_dependent :
    ((updateTestResult (updateTestResult chanC1 (str "http://p")
        (str "main") false resMainFail tsC) (str "http://a")
        (str "source_0") true resSrcOk tsC).test_results.getD
        defaultTR).status = str "online" ∧
    ((updateTestResult (updateTestResult chanC1 (str "http://p")
        (str "main") false resMainFail tsC) (str "http://a")
        (str "source_0") true resSrcOk tsC).test_results.getD
        defaultTR).working_url = some (str "http://a") ∧
    ((updateTestResult (updateTestResult chanC1 (str "http://a")
        (str "source_0") true resSrcOk tsC) (str "http://p")
        (str "main") false resMainFail tsC).test_results.getD
        defaultTR).status = str "offline" ∧
    ((updateTestResult (updateTestResult chanC1 (str "http://a")
        (str "source_0") true resSrcOk tsC) (str "http://p")
        (str "main") false resMainFail tsC).test_results.getD
        defaultTR).working_url = none ∧
    ((updateTestResult (updateTestResult chanC1 (str "http://a")
        (str "source_0") true resSrcOk tsC) (str "http://p")
        (str "main") false resMainFail tsC).test_results.getD
        defaultTR).response_time = none := by
  decide

/-- C4 (code_bug demonstration): with the primary URL returning HTTP 500
and the single alternate returning 200, a full batch with
`test_all_sources=True` ends online with the alternate promoted only when
the primary's result completes first; under the reverse completion order
(which `as_completed` permits) the same batch ends `offline` with
`working_url = None` even though the primary URL field was already
promoted, contradicting the claimed batch postcondition. -/
theorem c4_adverse_completion_order :
    buildTasks true [ensureTR chanC4] =
      [(0, str "http://p", str "main"), (0, str "http://a", str "source_0")] ∧
    (((runBatch [chanC4] true probeC4 [0, 1] tsC).getD 0
        default).test_results.getD defaultTR).status = str "online" ∧
    ((runBatch [chanC4] true probeC4 [0, 1] tsC).getD 0 default).url =
      str "http://a" ∧
    (((runBatch [chanC4] true probeC4 [0, 1] tsC).getD 0
        default).test_results.getD defaultTR).working_url =
      some (str "http://a") ∧
    (((runBatch [chanC4] true probeC4 [1, 0] tsC).getD 0
        default).test_results.getD defaultTR).status = str "offline" ∧
    (((runBatch [chanC4] true probeC4 [1, 0] tsC).getD 0
        default).test_results.getD defaultTR).working_url = none := by
  decide

/-- C5 (code_bug demonstration): a relative URL token is removed by the
scheme filter before `_resolve_relative_url` can run, so the entry is
dropped (zero channels) even though the resolver itself would produce the
expected absolute URL from the origin's scheme, host and directory. -/
theorem c5_relative_url_dropped :
    parseM3u (str "#EXTM3U\n#EXTINF:-1,Ch\nseg/live.m3u8\n")
      (some (str "http://h/d/p.m3u8")) = [] ∧
    resolveRelativeUrl (str "http://h/d/p.m3u8") (str "seg/live.m3u8") =
      str "http://h/d/seg/live.m3u8" := by
  decide

/-- C2 counterexample: two RawChannels with identical normalized
`(name, group)` but different URLs, passed together into an initially
empty store, are both stored verbatim — two distinct Channels share the
normalized pair and neither holds both URLs, refuting the claim for the
empty-store case. -/
theorem c2_counterexample :
    aggregateChannels [] [c2cand1, c2cand2] MatchBy.name (mkRat 17 20) =
      [c2cand1, c2cand2] ∧
    normName c2cand1.name = normName c2cand2.name ∧
    c2cand1.group_title = c2cand2.group_title ∧
    c2cand1.url ≠ c2cand2.url := by
  decide

/-- C2 as amended: when the store is nonempty at the call and the
similarity threshold is ≤ 1, two candidates with identical normalized
names are routed into one common stored Channel that afterwards holds
both URLs — whether merged in one call or in successive calls — and a
merge pass preserves pairwise-distinct normalized names (group titles
play no role in matching; the empty-store fast path adopts the candidate
list verbatim without intra-list deduplication). -/
theorem c2_amended (store : List AChan) (c1 c2 : AChan) (θ : ℚ)
    (hne : store ≠ []) (hθ : θ ≤ 1)
    (hnorm : normName c1.name = normName c2.name) :
    (∃ j, j < (aggregateChannels store [c1, c2] MatchBy.name θ).length ∧
      holdsUrl ((aggregateChannels store [c1, c2] MatchBy.name θ).getD j
        default) c1.url ∧
      holdsUrl ((aggregateChannels store [c1, c2] MatchBy.name θ).getD j
        default) c2.url) ∧
    aggregateChannels (aggregateChannels store [c1] MatchBy.name θ) [c2]
        MatchBy.name θ =
      aggregateChannels store [c1, c2] MatchBy.name θ ∧
    (∀ cs : List AChan,
      (store.map (fun ch => normName ch.name)).Pairwise (· ≠ ·) →
      ((aggregateChannels store cs MatchBy.name θ).map
        (fun ch => normName ch.name)).Pairwise (· ≠ ·)) := by
  have hfold : aggregateChannels store [c1, c2] MatchBy.name θ =
      mergeOne MatchBy.name θ (mergeOne MatchBy.name θ store c1) c2 := by
    rw [aggregateChannels_ne _ _ _ _ hne]
    rfl
  refine ⟨?_, ?_, ?_⟩
  · rw [hfold]
    exact mergeTwo_common store c1 c2 θ hθ hnorm
  · have h1 : aggregateChannels store [c1] MatchBy.name θ =
        mergeOne MatchBy.name θ store c1 := by
      rw [aggregateChannels_ne _ _ _ _ hne]
      rfl
    have hne1 : mergeOne MatchBy.name θ store c1 ≠ [] := by
      have hlen : 0 < (mergeOne MatchBy.name θ store c1).length :=
        lt_of_lt_of_le (List.length_pos.mpr hne)
          (mergeOne_length_ge MatchBy.name θ store c1)
      exact List.ne_nil_of_length_pos hlen
    rw [h1, aggregateChannels_ne _ _ _ _ hne1, hfold]
    rfl
  · intro cs hp
    rw [aggregateChannels_ne _ _ _ _ hne]
    exact mergeFold_pairwise_norm θ hθ cs store hp

/-- Witness for C2 as amended at a concrete nonempty store, threshold
17/20 and two candidates with equal normalized names. -/
theorem c2_amended_witness :
    storeW ≠ [] ∧ (mkRat 17 20 : ℚ) ≤ 1 ∧
    normName c2cand1.name = normName c2cand2.name ∧
    (∃ j, j < (aggregateChannels storeW [c2cand1, c2cand2] MatchBy.name
        (mkRat 17 20)).length ∧
      holdsUrl ((aggregateChannels storeW [c2cand1, c2cand2] MatchBy.name
        (mkRat 17 20)).getD j default) c2cand1.url ∧
      holdsUrl ((aggregateChannels storeW [c2cand1, c2cand2] MatchBy.name
        (mkRat 17 20)).getD j default) c2cand2.url) :=
  ⟨by decide, by decide, by decide,
    (c2_amended storeW c2cand1 c2cand2 (mkRat 17 20) (by decide) (by decide)
      (by decide)).1⟩

/-- C3 counterexample: the store holds "abcf" (similarity 3/4 to the
candidate "abcd") before an exact-name twin "abcd" in the same group.
With threshold 3/5 the code returns the first store-order fuzzy match
(index 0), while the spec's byName matcher — exact normalized-name
equality in the same group first, then highest score — returns index 1. -/
theorem c3_counterexample :
    findMatchIdx storeC3 candC3 MatchBy.name (mkRat 3 5) = some 0 ∧
    findMatchSpecByName storeC3 candC3 (mkRat 3 5) = some 1 ∧
    (storeC3.getD 1 default).name = candC3.name ∧
    normName (storeC3.getD 0 default).name ≠ normName candC3.name := by
  decide

/-- C3 as amended: `_find_matching_channel` under the byName policy scans
the store in order and returns the index of the first channel whose raw
lowercased name equals the candidate's or whose normalized-name
similarity is ≥ the threshold (exact equality checked before fuzzy only
within each channel, not globally); the group title plays no role, no
highest-score selection happens, and it returns none exactly when no
stored channel passes either test. -/
theorem c3_amended (chans : List AChan) (c : AChan) (θ : ℚ) :
    (∀ i, findMatchIdx chans c MatchBy.name θ = some i ↔
      (i < chans.length ∧
        (lowerStr (chans.getD i default).name = lowerStr c.name ∨
          θ ≤ nameSimilarity (chans.getD i default).name c.name) ∧
        ∀ j, j < i →
          ¬ (lowerStr (chans.getD j default).name = lowerStr c.name ∨
            θ ≤ nameSimilarity (chans.getD j default).name c.name))) ∧
    (findMatchIdx chans c MatchBy.name θ = none ↔
      ∀ ch ∈ chans, ¬ (lowerStr ch.name = lowerStr c.name ∨
        θ ≤ nameSimilarity ch.name c.name)) := by
  have hmf : ∀ ch : AChan, chanMatches ch c MatchBy.name θ = false ↔
      ¬ (lowerStr ch.name = lowerStr c.name ∨
        θ ≤ nameSimilarity ch.name c.name) := by
    intro ch
    rw [← chanMatches_name_iff ch c θ]
    cases h : chanMatches ch c MatchBy.name θ <;> simp [h]
  constructor
  · intro i
    rw [findMatchIdx_some_iff]
    constructor
    · rintro ⟨hi, hm, hall⟩
      exact ⟨hi, (chanMatches_name_iff _ c θ).mp hm,
        fun j hj => (hmf _).mp (hall j hj)⟩
    · rintro ⟨hi, hm, hall⟩
      exact ⟨hi, (chanMatches_name_iff _ c θ).mpr hm,
        fun j hj => (hmf _).mpr (hall j hj)⟩
  · rw [findMatchIdx_none_iff]
    constructor
    · intro h ch hch
      exact (hmf ch).mp (h ch hch)
    · intro h ch hch
      exact (hmf ch).mpr (h ch hch)

/-- Witness: the first-match characterization evaluated at the C3 store. -/
theorem c3_amended_witness :
    findMatchIdx storeC3 candC3 MatchBy.name (mkRat 1 2) = some 0 :=
  ((c3_amended storeC3 candC3 (mkRat 1 2)).1 0).mpr (by decide)

/-- C6: merging is idempotent under the byName policy in force (the
configured default): a second pass with the unchanged candidate set adds
no new Channels and no channel ends with duplicate `sources` URLs (given
well-formed inputs); and an update fills an empty `tvg_id`/`tvg_logo`
from the candidate while never changing the existing channel's primary
`url`. -/
theorem c6_merge_idempotent (store cs : List AChan) (θ : ℚ)
    (hst : ∀ ch ∈ store, (srcUrls ch).Nodup)
    (hcs : ∀ c ∈ cs, (srcUrls c).Nodup) :
    (aggregateChannels (aggregateChannels store cs MatchBy.name θ) cs
        MatchBy.name θ).length =
      (aggregateChannels store cs MatchBy.name θ).length ∧
    (∀ ch ∈ aggregateChannels (aggregateChannels store cs MatchBy.name θ) cs
        MatchBy.name θ, (srcUrls ch).Nodup) ∧
    (∀ ex c : AChan, (updateChannel ex c).url = ex.url ∧
      (updateChannel ex c).tvg_id =
        (if ex.tvg_id = [] then c.tvg_id else ex.tvg_id) ∧
      (updateChannel ex c).tvg_logo =
        (if ex.tvg_logo = [] then c.tvg_logo else ex.tvg_logo)) := by
  have hmeta : ∀ ex c : AChan, (updateChannel ex c).url = ex.url ∧
      (updateChannel ex c).tvg_id =
        (if ex.tvg_id = [] then c.tvg_id else ex.tvg_id) ∧
      (updateChannel ex c).tvg_logo =
        (if ex.tvg_logo = [] then c.tvg_logo else ex.tvg_logo) :=
    fun ex c => ⟨updateChannel_url ex c, updateChannel_tvg_id ex c,
      updateChannel_tvg_logo ex c⟩
  have hself : ∀ (l : List AChan), ∀ c ∈ l, ∃ j, j < l.length ∧
      chanMatches (l.getD j default) c MatchBy.name θ = true := by
    intro l c hc
    obtain ⟨j, hj, he⟩ := List.mem_iff_getElem.mp hc
    refine ⟨j, hj, ?_⟩
    have hgd : l.getD j default = c := by
      rw [List.getD_eq_getElem?_getD, List.getElem?_eq_getElem hj,
        Option.getD_some, he]
    rw [hgd]
    exact chanMatches_self_name c c θ rfl
  by_cases hs : store = []
  · subst hs
    rw [aggregateChannels_nil]
    by_cases hc : cs = []
    · subst hc
      rw [aggregateChannels_nil]
      exact ⟨rfl, by simp, hmeta⟩
    · rw [aggregateChannels_ne _ _ _ _ hc]
      exact ⟨mergeFold_length_stable θ cs cs (hself cs),
        mergeFold_nodup MatchBy.name θ cs cs hcs hcs, hmeta⟩
  · rw [aggregateChannels_ne _ _ _ _ hs]
    have hA1ne : cs.foldl (mergeOne MatchBy.name θ) store ≠ [] :=
      List.ne_nil_of_length_pos (lt_of_lt_of_le (List.length_pos.mpr hs)
        (mergeFold_length_ge MatchBy.name θ cs store))
    rw [aggregateChannels_ne _ _ _ _ hA1ne]
    exact ⟨mergeFold_length_stable θ cs _ (fun c hc =>
        mergeFold_match_exists θ cs store c hc),
      mergeFold_nodup MatchBy.name θ cs _
        (mergeFold_nodup MatchBy.name θ cs store hst hcs) hcs, hmeta⟩

/-- Witness for C6 at a concrete store and candidate set. -/
theorem c6_merge_idempotent_witness :
    (∀ ch ∈ storeW, (srcUrls ch).Nodup) ∧
    (∀ c ∈ [c2cand1], (srcUrls c).Nodup) ∧
    (aggregateChannels (aggregateChannels storeW [c2cand1] MatchBy.name
        (mkRat 17 20)) [c2cand1] MatchBy.name (mkRat 17 20)).length =
      (aggregateChannels storeW [c2cand1] MatchBy.name (mkRat 17 20)).length :=
  ⟨by decide, by decide,
    (c6_merge_idempotent storeW [c2cand1] (mkRat 17 20) (by decide)
      (by decide)).1⟩

/-- C7 counterexample: decoding a playlist whose URL line repeats a token
produces a channel whose `sources` list contains the same URL twice — the
decoder performs no deduplication, refuting the claim for decoded
channels. -/
theorem c7_counterexample :
    (parseM3u (str "#EXTM3U\n#EXTINF:-1,X\nhttp://a/1 http://b/2 http://b/2\n")
      none).length = 1 ∧
    srcUrls ((parseM3u
      (str "#EXTM3U\n#EXTINF:-1,X\nhttp://a/1 http://b/2 http://b/2\n")
      none).getD 0 default) = [str "http://b/2", str "http://b/2"] ∧
    ¬ (srcUrls ((parseM3u
      (str "#EXTM3U\n#EXTINF:-1,X\nhttp://a/1 http://b/2 http://b/2\n")
      none).getD 0 default)).Nodup := by
  decide

/-- C7 as amended: channels maintained through merge never gain duplicate
source URLs — `_update_channel` adds a URL only when absent, so a merge
pass preserves duplicate-freedom of every stored channel — but the
decoder does not deduplicate URL-line tokens, so a decoded channel may
start with duplicates. -/
theorem c7_amended (store cs : List AChan) (mb : MatchBy) (θ : ℚ)
    (hst : ∀ ch ∈ store, (srcUrls ch).Nodup)
    (hcs : ∀ c ∈ cs, (srcUrls c).Nodup) :
    ∀ ch ∈ aggregateChannels store cs mb θ, (srcUrls ch).Nodup := by
  by_cases hs : store = []
  · subst hs
    rw [aggregateChannels_nil]
    exact hcs
  · rw [aggregateChannels_ne _ _ _ _ hs]
    exact mergeFold_nodup mb θ cs store hst hcs

/-- Witness for C7 as amended at a concrete store and candidate set. -/
theorem c7_amended_witness :
    (∀ ch ∈ storeW, (srcUrls ch).Nodup) ∧
    (∀ c ∈ [c2cand1, c2cand2], (srcUrls c).Nodup) ∧
    ∀ ch ∈ aggregateChannels storeW [c2cand1, c2cand2] MatchBy.name
      (mkRat 17 20), (srcUrls ch).Nodup :=
  ⟨by decide, by decide,
    c7_amended storeW [c2cand1, c2cand2] MatchBy.name (mkRat 17 20)
      (by decide) (by decide)⟩

/-- C8: any input that does not begin with `#EXTM3U` after BOM/whitespace
stripping is rejected by the decode pipeline with the format-error
message and yields zero channel entries (the validation in `fetch_m3u`
strips only whitespace, which is strictly weaker: whenever the
BOM-then-whitespace-stripped text lacks the marker, so does the
whitespace-stripped text). -/
theorem c8_format_error (content : PyStr) (srcUrl : Option PyStr)
    (h : ¬ (str "#EXTM3U").isPrefixOf (stripBom (pyStrip content)) = true) :
    decodeM3u content srcUrl = Except.error formatErrorMsg := by
  unfold decodeM3u validM3uContent
  rw [if_neg]
  intro hpos
  apply h
  cases hs : pyStrip content with
  | nil =>
    rw [hs] at hpos
    exact absurd hpos (by decide)
  | cons c rest =>
    rw [hs] at hpos
    have hsplit : str "#EXTM3U" = '#' :: str "EXTM3U" := by decide
    rw [hsplit] at hpos ⊢
    have h2 : ('#' == c) = true ∧ (str "EXTM3U").isPrefixOf rest = true := by
      simpa [List.isPrefixOf] using hpos
    have hc : c = '#' := (beq_iff_eq.mp h2.1).symm
    simp only [stripBom]
    rw [if_neg (by rw [hc]; decide)]
    exact hpos

/-- Witness for C8 at the concrete input "hello". -/
theorem c8_format_error_witness :
    ¬ (str "#EXTM3U").isPrefixOf (stripBom (pyStrip (str "hello"))) = true ∧
    decodeM3u (str "hello") none = Except.error formatErrorMsg :=
  ⟨by decide, c8_format_error (str "hello") none (by decide)⟩

/-- C10: after `batch_test` returns normally every channel carries a
`test_results` dict, and a channel that entered without one and had no
completed probe result applied (no task for its index completed — the
probe raising counts as not completed) leaves with status "untested" and
null `last_tested`, `working_url`, `response_time`. -/
theorem c10_untested_invariant (chans : List TChan) (testAll : Bool)
    (probe : PyStr → Option (Bool × (ℚ ⊕ PyStr))) (order : List Nat)
    (ts : PyStr) :
    (∀ ch ∈ runBatch chans testAll probe order ts,
      ch.test_results.isSome) ∧
    (∀ i, i < chans.length → (chans.getD i default).test_results = none →
      (∀ oi ∈ order, ∀ t, (buildTasks testAll (chans.map ensureTR)).get? oi =
        some t → t.1 = i → probe t.2.1 = none) →
      ((runBatch chans testAll probe order ts).getD i
        default).test_results = some defaultTR) := by
  constructor
  · intro ch hch
    unfold runBatch at hch
    rcases List.mem_map.mp hch with ⟨ch0, -, he⟩
    rw [← he]
    exact ensureTR_isSome ch0
  · intro i hi hnone hall
    show (((order.foldl (applyResult probe ts
        (buildTasks testAll (chans.map ensureTR))) (chans.map ensureTR)).map
        ensureTR).getD i default).test_results = some defaultTR
    have hlenfold : (order.foldl (applyResult probe ts
        (buildTasks testAll (chans.map ensureTR)))
        (chans.map ensureTR)).length = chans.length := by
      rw [foldResults_length]
      simp
    rw [mapGetD _ _ i (by rw [hlenfold]; exact hi)]
    rw [foldResults_getD_untouched probe ts _ i order _ hall]
    rw [mapGetD _ _ i (by simpa using hi)]
    have h1 : ensureTR (chans.getD i default) =
        { chans.getD i default with test_results := some defaultTR } := by
      unfold ensureTR
      rw [hnone]
    rw [h1]
    rfl

/-- Witness for C10: one channel entering without `test_results` and a
batch in which no result completes. -/
theorem c10_untested_invariant_witness :
    (0 : Nat) < [chanC4].length ∧
    ([chanC4].getD 0 default).test_results = none ∧
    ((runBatch [chanC4] true probeC4 [] tsC).getD 0
      default).test_results = some defaultTR :=
  ⟨by decide, by decide,
    (c10_untested_invariant [chanC4] true probeC4 [] tsC).2 0 (by decide)
      (by decide) (by intro oi hoi; exact absurd hoi (List.not_mem_nil oi))⟩

/-- C9 counterexample: probing `http://x/a.m3u8` against an oracle whose
playlist fetch succeeds (one segment reference) but whose segment HEAD
checks time out yields `available = false` with the reason
"TS分片不可访问" (segments unreachable), not a timeout reason — the
segment-check timeouts are swallowed by the inner `except: continue`,
refuting "a timeout reason in every protocol branch". -/
theorem c9_counterexample :
    testStream (str "http://x/a.m3u8") netC9 =
      (false, Sum.inr (str "TS分片不可访问")) ∧
    netC9.head (str "http://x/seg1.ts") = ReqOutcome.timeout ∧
    str "TS分片不可访问" ≠ str "请求超时" := by
  decide

/-- C9 as amended: the probe is total by construction and
`available = true` only when the decisive request of the dispatched
branch genuinely succeeded — so unreachable hosts, errors statuses and
exceptions all map to `available = false` with that branch's classified
message — and a timeout of the decisive request yields the branch's
timeout message ("RTMP端口不可达: timed out" in the rtmp branch,
"请求超时" elsewhere); only timeouts inside the m3u8 segment HEAD loop
are reported as "TS分片不可访问" instead. -/
theorem c9_amended (url : PyStr) (net : Net) :
    ((testStream url net).1 = true → probeSuccess url net) ∧
    (decisiveTimeout url net →
      testStream url net = (false, Sum.inr (timeoutMsg url))) := by
  by_cases h1 : (str "rtmp").isPrefixOf (lowerStr url) = true
  · constructor
    · intro ht
      unfold testStream at ht
      rw [if_pos h1] at ht
      unfold probeSuccess
      rw [if_pos h1]
      cases htcp : net.tcp (rtmpHostPort url).1 (rtmpHostPort url).2 with
      | ok => rfl
      | exc m =>
        dsimp only at ht
        rw [htcp] at ht
        simp at ht
    · intro htm
      unfold decisiveTimeout at htm
      rw [if_pos h1] at htm
      unfold testStream timeoutMsg
      rw [if_pos h1, if_pos h1]
      dsimp only
      rw [htm]
      rfl
  · by_cases h2 : (containsSub (str "douyu") url || containsSub (str "huya")
        url || containsSub (str "bilibili") url) = true
    · constructor
      · intro ht
        unfold testStream at ht
        rw [if_neg h1, if_pos h2] at ht
        unfold probeSuccess
        rw [if_neg h1, if_pos h2]
        cases hgs : net.getStream url with
        | done status =>
          rw [hgs] at ht
          dsimp only at ht
          by_cases hst : status = 200
          · subst hst
            rfl
          · rw [if_neg hst] at ht
            simp at ht
        | timeout => rw [hgs] at ht; simp at ht
        | connError => rw [hgs] at ht; simp at ht
        | exc m => rw [hgs] at ht; simp at ht
      · intro htm
        unfold decisiveTimeout at htm
        rw [if_neg h1, if_pos h2] at htm
        unfold testStream timeoutMsg
        rw [if_neg h1, if_pos h2, if_neg h1]
        rw [htm]
    · by_cases h3 : (str ".m3u8").isSuffixOf url = true
      · constructor
        · intro ht
          unfold testStream at ht
          rw [if_neg h1, if_neg h2, if_pos h3] at ht
          unfold probeSuccess
          rw [if_neg h1, if_neg h2, if_pos h3]
          cases hget : net.get url with
          | ok status body =>
            rw [hget] at ht
            dsimp only at ht
            by_cases hst : status = 200
            · subst hst
              rw [if_neg (by omega)] at ht
              by_cases hsegs : tsUrls url body = []
              · rw [if_pos hsegs] at ht
                simp at ht
              · rw [if_neg hsegs] at ht
                by_cases hany : (tsUrls url body).any (fun t =>
                    match net.head t with
                    | ReqOutcome.ok s _ => decide (s = 200)
                    | _ => false) = true
                · refine ⟨body, rfl, hsegs, ?_⟩
                  obtain ⟨t, htmem, htv⟩ := List.any_eq_true.mp hany
                  refine ⟨t, htmem, ?_⟩
                  cases hh : net.head t with
                  | ok s b2 =>
                    rw [hh] at htv
                    have : s = 200 := by simpa using htv
                    subst this
                    exact ⟨b2, rfl⟩
                  | timeout => rw [hh] at htv; simp at htv
                  | connError => rw [hh] at htv; simp at htv
                  | exc m => rw [hh] at htv; simp at htv
                · rw [if_neg hany] at ht
                  simp at ht
            · rw [if_pos hst] at ht
              simp at ht
          | timeout => rw [hget] at ht; simp at ht
          | connError => rw [hget] at ht; simp at ht
          | exc m => rw [hget] at ht; simp at ht
        · intro htm
          unfold decisiveTimeout at htm
          rw [if_neg h1, if_neg h2, if_pos h3] at htm
          unfold testStream timeoutMsg
          rw [if_neg h1, if_neg h2, if_pos h3, if_neg h1]
          rw [htm]
      · constructor
        · intro ht
          unfold testStream at ht
          rw [if_neg h1, if_neg h2, if_neg h3] at ht
          unfold probeSuccess
          rw [if_neg h1, if_neg h2, if_neg h3]
          cases hh : net.head url with
          | ok status b2 =>
            rw [hh] at ht
            dsimp only at ht
            by_cases hst : status = 200
            · subst hst
              exact ⟨b2, rfl⟩
            · rw [if_neg hst] at ht
              simp at ht
          | timeout => rw [hh] at ht; simp at ht
          | connError => rw [hh] at ht; simp at ht
          | exc m => rw [hh] at ht; simp at ht
        · intro htm
          unfold decisiveTimeout at htm
          rw [if_neg h1, if_neg h2, if_neg h3] at htm
          unfold testStream timeoutMsg
          rw [if_neg h1, if_neg h2, if_neg h3, if_neg h1]
          rw [htm]

/-- Witness for C9 as amended: a generic HEAD probe whose decisive request
times out reports `available = false` with the timeout message. -/
theorem c9_amended_witness :
    decisiveTimeout (str "http://plain/x") netC9 ∧
    testStream (str "http://plain/x") netC9 =
      (false, Sum.inr (timeoutMsg (str "http://plain/x"))) := by
  have hd : decisiveTimeout (str "http://plain/x") netC9 := by
    show netC9.head (str "http://plain/x") = ReqOutcome.timeout
    rfl
  exact ⟨hd, (c9_amended (str "http://plain/x") netC9).2 hd⟩
